import Mathlib

/-!
# veth-netns: a shallow embedding of `main.go`

The program resolves, for a veth endpoint visible in the current network
namespace, the inode of the network namespace holding the other end.

The embedding follows `main.go` function by function:

* `getNSIno`, `getAllNetNS`      (namespace enumeration, lines 31-72)
* `getLinkNetNSID`               (peer identifier, lines 80-100)
* `getLocalNetNSID`              (netlink probe, lines 102-118)
* `getNetNSFromVeth`             (correlation loop, lines 120-165)

Go strings are byte sequences; a byte is a `Nat` below 256.  Go's `(int, error)`
results are values of `Outcome Int`; a run-time abort of the Go program
(index or slice out of range) is the third constructor of `Outcome`.
Everything the operating system, the `ip` command and the libraries
`netns`, `netlink` and `encoding/json` answer is a field of `Env`.
-/

deriving instance DecidableEq for Except

namespace VethNetns

/-! ## Strings -/

/-- A Go string: a sequence of bytes, each byte a natural number below 256. -/
abbrev GoString := List Nat

/-- The bytes of an ASCII text. -/
def ascii (s : String) : GoString := s.toList.map Char.toNat

/-- The byte `':'`. -/
def colon : Nat := 58

/-- Go's `strings.Split(s, sep)` for a one-byte separator `sep`: the pieces of `s`
between the occurrences of `sep`; the empty string gives one empty piece. -/
def stringsSplit (sep : Nat) : GoString → List GoString
  | [] => [[]]
  | c :: cs =>
    if c = sep then [] :: stringsSplit sep cs
    else
      match stringsSplit sep cs with
      | [] => [[c]]
      | p :: ps => (c :: p) :: ps

/-- The decimal digits of `s` read from the left onto the accumulator `acc`;
`none` when a byte of `s` is not one of `'0'`..`'9'`. -/
def parseDigits : GoString → Nat → Option Nat
  | [], acc => some acc
  | c :: cs, acc => if 48 ≤ c ∧ c ≤ 57 then parseDigits cs (acc * 10 + (c - 48)) else none

/-- Go's `strconv.Atoi` on a 64-bit platform: an optional sign `'+'` or `'-'`, then
at least one decimal digit and nothing else, the value within the range of `int`.
`none` stands for the `*NumError` that `Atoi` returns otherwise. -/
def strconvAtoi (s : GoString) : Option Int :=
  match s with
  | [] => none
  | c :: rest =>
    let neg : Bool := decide (c = 45)
    let digits : GoString := if c = 45 ∨ c = 43 then rest else s
    match digits with
    | [] => none
    | _ :: _ =>
      match parseDigits digits 0 with
      | none => none
      | some un =>
        if neg then (if un ≤ 2 ^ 63 then some (-(un : Int)) else none)
        else (if un < 2 ^ 63 then some (un : Int) else none)

/-- The decimal rendering of a natural number, as bytes. -/
def decimal (n : Nat) : GoString := (Nat.toDigits 10 n).map Char.toNat

/-- Go's `filepath.Split`: the path cut after its last `'/'`;
the directory part is empty when there is no `'/'`. -/
def filepathSplit : GoString → GoString × GoString
  | [] => ([], [])
  | c :: cs =>
    if 47 ∈ cs then ((c :: (filepathSplit cs).1), (filepathSplit cs).2)
    else if c = 47 then ([c], cs)
    else ([], c :: cs)

/-- The element loop of Go's `filepath.Clean`, over the pieces of the path between
its `'/'`: `acc` holds the elements kept so far, the latest first.  An empty piece
and `.` are dropped; `..` removes the latest element kept, unless there is none or
it is itself a kept `..`: then `..` is dropped in a rooted path and kept in a
relative one; every other piece is kept. -/
def cleanElems (rooted : Bool) : List GoString → List GoString → List GoString
  | [], acc => acc.reverse
  | e :: es, acc =>
    if e = [] ∨ e = [46] then cleanElems rooted es acc
    else if e = [46, 46] then
      match acc with
      | [] => if rooted then cleanElems rooted es [] else cleanElems rooted es [e]
      | top :: rest =>
        if top = [46, 46] then
          (if rooted then cleanElems rooted es acc else cleanElems rooted es (e :: acc))
        else cleanElems rooted es rest
    else cleanElems rooted es (e :: acc)

/-- Go's `filepath.Clean` on Unix: the shortest path equivalent to `path` by purely
lexical processing (doubled separators, `.` elements and inner `..` elements with
the element before them removed, `..` at the root removed, no trailing separator);
the empty path gives `.`. -/
def filepathClean (path : GoString) : GoString :=
  match path with
  | [] => [46]
  | c :: _ =>
    if c = 47 then 47 :: [47].intercalate (cleanElems true (stringsSplit 47 path) [])
    else
      match cleanElems false (stringsSplit 47 path) [] with
      | [] => [46]
      | e :: es => [47].intercalate (e :: es)

/-- Go's `filepath.Join` on Unix: the elements from the first non-empty one on,
joined by `'/'`, and the result cleaned; the empty string when every element is
empty. -/
def filepathJoin (elems : List GoString) : GoString :=
  match elems.dropWhile (fun e => decide (e = [])) with
  | [] => []
  | e :: es => filepathClean ([47].intercalate (e :: es))

/-! ## Results -/

/-- A run-time abort of the Go program. -/
inductive Crash where
  /-- An index expression `x[i]` with `i` not below `len`. -/
  | indexOutOfRange (i len : Nat)
  /-- A slice expression `s[lo:hi]` with `hi < lo` or `hi` out of range. -/
  | sliceBounds (lo : Nat) (hi : Int)
  deriving DecidableEq, Repr

/-- The error values of the program. -/
inductive GoError where
  /-- An error value handed back by the operating system or a library call and
  passed through unchanged. -/
  | sys (msg : String)
  /-- The `*NumError` of `strconv.Atoi` on the text `s`. -/
  | atoi (s : GoString)
  /-- Line 91: `failed to get link-netnsid from veth ...`. -/
  | linkQuery (veth : GoString) (msg : String) (output : GoString)
  /-- Line 97: `cannot parse json output: ...`. -/
  | parseJson (msg : String) (output : GoString)
  /-- Line 164: `netns inode for ... not found`. -/
  | notFound (veth : GoString)
  deriving DecidableEq, Repr

/-- What a call of a Go function of type `(T, error)` does: it returns `(v, nil)`,
it returns `(-1, e)` with `e` not nil, or the program aborts. -/
inductive Outcome (α : Type) where
  | ok (v : α)
  | err (e : GoError)
  | abort (c : Crash)
  deriving DecidableEq, Repr

/-! ## `getNSIno` -/

/-- The path `/proc/<pid>/ns/<nsType>` of line 34. -/
def nsLinkPath (nsType pid : GoString) : GoString :=
  filepathJoin [ascii "/proc", pid, ascii "ns", nsType]

/-- Lines 41-49 of `getNSIno`: the inode number in the link text `i`. -/
def parseNSLink (i : GoString) : Outcome Int :=
  -- inoStr := strings.Split(i, ":")[1]
  let parts := stringsSplit colon i
  match parts[1]? with
  | none => .abort (.indexOutOfRange 1 parts.length)
  | some inoStr =>
    -- inoStr = inoStr[1 : len(inoStr)-1]
    if inoStr.length < 2 then .abort (.sliceBounds 1 ((inoStr.length : Int) - 1))
    else
      let inoStr2 := (inoStr.drop 1).take (inoStr.length - 2)
      match strconvAtoi inoStr2 with
      | none => .err (.atoi inoStr2)
      | some ino => .ok ino

/-- Lines 33-50, `getNSIno(nsType, pid)`; `readlink` is `os.Readlink`. -/
def getNSIno (readlink : GoString → Except String GoString) (nsType pid : GoString) :
    Outcome Int :=
  match readlink (nsLinkPath nsType pid) with
  | .error e => .err (.sys e)
  | .ok i => parseNSLink i

/-! ## The environment -/

/-- A network namespace, named by its identity (its inode number). -/
abbrev Ctx := Nat

/-- A `netns.NsHandle`: an open descriptor designating a network namespace. -/
inductive NsHandle where
  /-- The handle `netns.Get()` returns, designating the namespace `ns` of the caller. -/
  | current (ns : Ctx)
  /-- The handle `netns.GetFromPath(path)` returns, designating the namespace `ns`. -/
  | fromPath (path : GoString) (ns : Ctx)
  deriving DecidableEq, Repr

/-- The namespace a handle designates. -/
def NsHandle.ns : NsHandle → Ctx
  | .current ns => ns
  | .fromPath _ ns => ns

/-- One record of the output of `ip --json link show` (lines 74-78). -/
structure ifInfo where
  Ifindex : Int
  IFName : GoString
  LinkNetnsId : Int
  deriving DecidableEq, Repr

/-- An entry of the map `netNSs`: inode number and path. -/
abbrev Entry := Int × GoString

/-- The map `map[int]string` of `getAllNetNS`, as the list of its entries (keys distinct). -/
abbrev NsTable := List Entry

/-- The answers of everything outside `main.go`. -/
structure Env where
  /-- The combined output and the error (if any) of `ip --json link show <veth>`,
  run in the namespace the caller is in. -/
  ipLinkShow : GoString → GoString × Option String
  /-- What `json.Unmarshal(output, &m)` does on `m := []ifInfo{}`: its error, or the
  slice `m` it leaves. -/
  jsonUnmarshal : GoString → Except String (List ifInfo)
  /-- The matches of `filepath.Glob("/proc/[0-9]*")`. -/
  procDirs : List GoString
  /-- The answer of `os.Readlink`. -/
  readlink : GoString → Except String GoString
  /-- The error of `netns.Get()`, if it fails. -/
  netnsGet : Option String
  /-- The answer of `netns.GetFromPath`: the namespace the opened path designates. -/
  netnsGetFromPath : GoString → Except String Ctx
  /-- The error of `netns.Set` on a handle, if it fails (the thread then stays where it is). -/
  netnsSet : NsHandle → Option String
  /-- The error of `os.Open`, if it fails. -/
  osOpen : GoString → Option String
  /-- The answer of `netlink.GetNetNsIdByFd` on the open file of a path, asked by a
  thread that is in the namespace given first. -/
  getNetNsIdByFd : Ctx → GoString → Except String Int
  /-- The order in which the `k`-th `range` statement over the map run by
  `getNetNSFromVeth` visits the entries (Go leaves it unspecified): `0` is the outer
  loop, `i + 1` the inner loop of the outer loop's `i`-th iteration. -/
  range : Nat → NsTable → NsTable

/-- What the program does to the outside, in the order it does it. -/
inductive Event where
  /-- The command `ip --json link show <veth>` is run. -/
  | ipLinkShow (veth : GoString)
  /-- Line 127: `link-netnsid of <veth>: <id>` on the standard output. -/
  | printLinkNetNSID (veth : GoString) (id : Int)
  /-- The process table is listed (`filepath.Glob`). -/
  | glob
  /-- The link at a path is read. -/
  | readlink (path : GoString)
  /-- Line 63: `error resolving <pid>: <err>` on the standard error. -/
  | warn (pid : GoString) (e : GoError)
  /-- The call `netns.Get()`. -/
  | netnsGet
  /-- The call `netns.GetFromPath(path)`. -/
  | netnsGetFromPath (path : GoString)
  /-- The call `netns.Set(h)`, made by a thread that is in `ctx`; `ok` tells whether it
  succeeded. -/
  | netnsSet (ctx : Ctx) (h : NsHandle) (ok : Bool)
  /-- The call `Close()` on a namespace handle. -/
  | closeHandle (h : NsHandle)
  /-- The call `os.Open(path)`. -/
  | osOpen (path : GoString)
  /-- The call `netlink.GetNetNsIdByFd` on the open file of `path`, made by a thread
  that is in `ctx`. -/
  | getNetNsIdByFd (ctx : Ctx) (path : GoString)
  /-- The call `Close()` on the open file of `path`. -/
  | closeFile (path : GoString)
  deriving DecidableEq, Repr

/-- The state a run changes: the network namespace the calling thread is in, and the
events so far. -/
structure World where
  ctx : Ctx
  trace : List Event
  deriving DecidableEq, Repr

/-- The world after one more event. -/
def World.log (w : World) (e : Event) : World := { w with trace := w.trace ++ [e] }

/-! ## `getAllNetNS` -/

/-- The assignment `m[k] = v` on a Go map. -/
def mapInsert (t : NsTable) (k : Int) (v : GoString) : NsTable :=
  if t.any (fun e => decide (e.1 = k)) then t.map (fun e => if e.1 = k then (k, v) else e)
  else t ++ [(k, v)]

/-- The loop of lines 58-69 over the remaining matches, from the map built so far:
the result and the events of the iterations. -/
def getAllNetNSLoop (env : Env) : List GoString → NsTable → Outcome NsTable × List Event
  | [], netNamespaces => (.ok netNamespaces, [])
  | f :: fs, netNamespaces =>
    let pid := (filepathSplit f).2
    let ev := Event.readlink (nsLinkPath (ascii "net") pid)
    match getNSIno env.readlink (ascii "net") pid with
    | .abort c => (.abort c, [ev])
    | .err e =>
      let r := getAllNetNSLoop env fs netNamespaces
      (r.1, ev :: Event.warn pid e :: r.2)
    | .ok ns =>
      let r := getAllNetNSLoop env fs (mapInsert netNamespaces ns (filepathJoin [f, ascii "ns", ascii "net"]))
      (r.1, ev :: r.2)

/-- Lines 54-72, `getAllNetNS()`: the result and the events of the call. -/
def getAllNetNS (env : Env) : Outcome NsTable × List Event :=
  let r := getAllNetNSLoop env env.procDirs []
  (r.1, Event.glob :: r.2)

/-- The warnings among some events. -/
def warnings (evs : List Event) : List Event :=
  evs.filter (fun e => match e with | .warn _ _ => true | _ => false)

/-! ## `getLinkNetNSID` -/

/-- Lines 81-100, `getLinkNetNSID(vethName)`. -/
def getLinkNetNSID (env : Env) (vethName : GoString) : Outcome Int :=
  match (env.ipLinkShow vethName).2 with
  | some e => .err (.linkQuery vethName e (env.ipLinkShow vethName).1)
  | none =>
    match env.jsonUnmarshal (env.ipLinkShow vethName).1 with
    | .error e => .err (.parseJson e (env.ipLinkShow vethName).1)
    | .ok m =>
      -- return m[0].LinkNetnsId, nil
      match m with
      | [] => .abort (.indexOutOfRange 0 0)
      | r :: _ => .ok r.LinkNetnsId

/-! ## `getLocalNetNSID` -/

/-- Lines 104-118, `getLocalNetNSID(netNSPath)`, called by a thread in `w.ctx`. -/
def getLocalNetNSID (env : Env) (w : World) (netNSPath : GoString) : Outcome Int × World :=
  match env.osOpen netNSPath with
  | some e => (.err (.sys e), w.log (.osOpen netNSPath))
  | none =>
    -- defer f.Close()
    let w1 := (w.log (.osOpen netNSPath)).log (.getNetNsIdByFd w.ctx netNSPath)
    match env.getNetNsIdByFd w.ctx netNSPath with
    | .error e => (.err (.sys e), w1.log (.closeFile netNSPath))
    | .ok localNetNSID => (.ok localNetNSID, w1.log (.closeFile netNSPath))

/-! ## `getNetNSFromVeth` -/

/-- A call registered by a `defer` statement. -/
inductive Deferred where
  /-- From `defer origNS.Close()` and `defer nsHandle.Close()`. -/
  | closeHandle (h : NsHandle)
  /-- From `defer netns.Set(origNS)`. -/
  | netnsSet (h : NsHandle)
  deriving DecidableEq, Repr

/-- The inner loop, lines 152-161, over the entries still to visit: `some r` when the
function returns `r` from inside the loop, `none` when the loop runs to its end. -/
def innerLoop (env : Env) (linkNetNSID : Int) : NsTable → World → Option (Outcome Int) × World
  | [], w => (none, w)
  | (netNSIno, netNSPath2) :: rest, w =>
    match getLocalNetNSID env w netNSPath2 with
    | (.err e, w1) => (some (.err e), w1)
    | (.abort c, w1) => (some (.abort c), w1)
    | (.ok localNetNSID, w1) =>
      if localNetNSID = linkNetNSID then (some (.ok netNSIno), w1)
      else innerLoop env linkNetNSID rest w1

/-- The call `netns.Set(h)` by the thread of `w`: the error if it fails, and the world
after it.  On success the thread is in the namespace of `h`; on failure it stays
where it is. -/
def netnsSet (env : Env) (w : World) (h : NsHandle) : Option String × World :=
  match env.netnsSet h with
  | some e => (some e, w.log (.netnsSet w.ctx h false))
  | none => (none, { ctx := h.ns, trace := w.trace ++ [.netnsSet w.ctx h true] })

/-- The outer loop, lines 140-162, from its `i`-th iteration on, over the entries still
to visit; `ds` is the stack of deferred calls, the latest first.  The result is
`some r` when the function returns `r` from inside the loop and `none` when the loop
runs to its end, with the world and the deferred calls at that point. -/
def outerLoop (env : Env) (origNS : NsHandle) (linkNetNSID : Int) (netNSs : NsTable) :
    Nat → NsTable → World → List Deferred → Option (Outcome Int) × World × List Deferred
  | _, [], w, ds => (none, w, ds)
  | i, (_, netNSPath) :: rest, w, ds =>
    match env.netnsGetFromPath netNSPath with
    | .error e => (some (.err (.sys e)), w.log (.netnsGetFromPath netNSPath), ds)
    | .ok ns =>
      -- defer nsHandle.Close()
      match netnsSet env (w.log (.netnsGetFromPath netNSPath)) (.fromPath netNSPath ns) with
      | (some e, w2) => (some (.err (.sys e)), w2, .closeHandle (.fromPath netNSPath ns) :: ds)
      | (none, w2) =>
        -- defer netns.Set(origNS)
        match innerLoop env linkNetNSID (env.range (i + 1) netNSs) w2 with
        | (some r, w3) =>
          (some r, w3, .netnsSet origNS :: .closeHandle (.fromPath netNSPath ns) :: ds)
        | (none, w3) =>
          outerLoop env origNS linkNetNSID netNSs (i + 1) rest w3
            (.netnsSet origNS :: .closeHandle (.fromPath netNSPath ns) :: ds)

/-- The deferred calls run when the function returns, the latest first; the error of
a deferred `netns.Set` is dropped. -/
def runDeferred (env : Env) : List Deferred → World → World
  | [], w => w
  | .closeHandle h :: ds, w => runDeferred env ds (w.log (.closeHandle h))
  | .netnsSet h :: ds, w => runDeferred env ds (netnsSet env w h).2

/-- Lines 134-165 of `getNetNSFromVeth`, from `netns.Get()` on. -/
def correlate (env : Env) (vethName : GoString) (linkNetNSID : Int) (netNSs : NsTable)
    (w : World) : Outcome Int × World :=
  match env.netnsGet with
  | some e => (.err (.sys e), w.log .netnsGet)
  | none =>
    let origNS := NsHandle.current w.ctx
    -- defer origNS.Close()
    let r := outerLoop env origNS linkNetNSID netNSs 0 (env.range 0 netNSs) (w.log .netnsGet)
      [Deferred.closeHandle origNS]
    (r.1.getD (.err (.notFound vethName)), runDeferred env r.2.2 r.2.1)

/-- Lines 122-165, `getNetNSFromVeth(vethName)`, called by a thread that is in the
namespace `ctx0`: the result, and the world when the function has returned. -/
def getNetNSFromVeth (env : Env) (ctx0 : Ctx) (vethName : GoString) : Outcome Int × World :=
  let w0 : World := { ctx := ctx0, trace := [.ipLinkShow vethName] }
  match getLinkNetNSID env vethName with
  | .err e => (.err e, w0)
  | .abort c => (.abort c, w0)
  | .ok linkNetNSID =>
    let w1 := w0.log (.printLinkNetNSID vethName linkNetNSID)
    match getAllNetNS env with
    | (.err e, evs) => (.err e, { w1 with trace := w1.trace ++ evs })
    | (.abort c, evs) => (.abort c, { w1 with trace := w1.trace ++ evs })
    | (.ok netNSs, evs) =>
      correlate env vethName linkNetNSID netNSs { w1 with trace := w1.trace ++ evs }

/-! ## Notions the properties are stated with -/

/-- The entries into a candidate namespace among some events: for every call
`netns.Set(nsHandle)` on a handle opened from a path, the namespace the thread is in
when it makes the call, and the namespace the handle designates. -/
def enterings : List Event → List (Ctx × Ctx)
  | [] => []
  | .netnsSet c (.fromPath _ ns) _ :: es => (c, ns) :: enterings es
  | _ :: es => enterings es

/-- The calls of `netns.Set` among some events. -/
def setCalls (evs : List Event) : List Event :=
  evs.filter (fun e => match e with | .netnsSet _ _ _ => true | _ => false)

/-- The event is a call `netns.Set(nsHandle)` entering a candidate namespace. -/
def Event.isEntering : Event → Bool
  | .netnsSet _ (.fromPath _ _) _ => true
  | _ => false

/-- The event is a call `netns.Set(origNS)`, `origNS` designating the namespace `c0`. -/
def Event.isRestoring (c0 : Ctx) : Event → Bool
  | .netnsSet _ (.current c) _ => decide (c = c0)
  | _ => false

/-- The event is a call `netns.Set(origNS)` that failed, `origNS` designating the
namespace `c0`. -/
def Event.isFailedRestore (c0 : Ctx) : Event → Bool
  | .netnsSet _ (.current c) false => decide (c = c0)
  | _ => false

/-- The probe of the entry `d` from inside the entry `c` answers `id`: the path of `c`
opens, and from the namespace it designates `netlink` gives the path of `d` the
identifier `id`. -/
def Matches (env : Env) (id : Int) (c d : Entry) : Prop :=
  ∃ ns, env.netnsGetFromPath c.2 = .ok ns ∧ env.getNetNsIdByFd ns d.2 = .ok id

/-- The pairs (entered entry, probed entry) in the order the two nested loops visit
them, `outer` being the entries the outer loop visits from its `i`-th iteration on. -/
def probeOrder (env : Env) (netNSs : NsTable) : Nat → NsTable → List (Entry × Entry)
  | _, [] => []
  | i, c :: rest => (env.range (i + 1) netNSs).map (fun d => (c, d)) ++ probeOrder env netNSs (i + 1) rest

/-- The netlink query of the path of `d`, asked from inside the namespace `ns`,
succeeds and answers `id`. -/
def answers (env : Env) (id : Int) (ns : Ctx) (d : Entry) : Bool :=
  match env.getNetNsIdByFd ns d.2 with
  | .ok r => decide (r = id)
  | .error _ => false

/-- The test `Matches`, computed. -/
def probeHits (env : Env) (id : Int) (c d : Entry) : Bool :=
  match env.netnsGetFromPath c.2 with
  | .ok ns => answers env id ns d
  | .error _ => false

/-- Every collaborator call the correlation loop makes over the table `t` succeeds,
and every `range` visits each entry of `t` once. -/
structure Healthy (env : Env) (t : NsTable) : Prop where
  get : env.netnsGet = none
  fromPath : ∀ c ∈ t, ∃ ns, env.netnsGetFromPath c.2 = .ok ns
  set : ∀ c ∈ t, ∀ ns, env.netnsSet (.fromPath c.2 ns) = none
  osOpen : ∀ d ∈ t, env.osOpen d.2 = none
  nsid : ∀ c ∈ t, ∀ ns, env.netnsGetFromPath c.2 = .ok ns →
    ∀ d ∈ t, ∃ id, env.getNetNsIdByFd ns d.2 = .ok id
  range : ∀ k, (env.range k t).Perm t

/-- The first pair of the nested loops whose probe answers `id`. -/
def firstHit (env : Env) (id : Int) (netNSs : NsTable) : Option (Entry × Entry) :=
  (probeOrder env netNSs 0 (env.range 0 netNSs)).find? (fun p => probeHits env id p.1 p.2)

/-- Invariant of the outer loop: every deferred `netns.Set` is on `orig`, and the
thread is in the namespace of `orig` unless such a call is deferred. -/
def RestoreInv (orig : NsHandle) (w : World) (ds : List Deferred) : Prop :=
  (∀ h, Deferred.netnsSet h ∈ ds → h = orig) ∧ (w.ctx = orig.ns ∨ Deferred.netnsSet orig ∈ ds)

/-- Invariant of the outer loop: the thread made its first entry from `c0`, every later
entry from the namespace entered before, and it is in the namespace entered last. -/
def ChainInv (c0 : Ctx) (w : World) : Prop :=
  (enterings w.trace).map Prod.fst ++ [w.ctx] = c0 :: (enterings w.trace).map Prod.snd

/-- The first entry is made from `c0` and every later one from the namespace of the
entry before it. -/
def Chained (c0 : Ctx) (es : List (Ctx × Ctx)) : Prop :=
  es.map Prod.fst = (c0 :: es.map Prod.snd).dropLast

/-- What `getAllNetNS` gets from `getNSIno` for the match `f` of the process listing. -/
def resolve (env : Env) (f : GoString) : Outcome Int :=
  getNSIno env.readlink (ascii "net") (filepathSplit f).2

/-- The outcome is an error value. -/
def Outcome.isErr {α : Type} : Outcome α → Bool
  | .err _ => true
  | _ => false

/-- The outcome is an abort. -/
def Outcome.isAbort {α : Type} : Outcome α → Bool
  | .abort _ => true
  | _ => false

/-! ## Simulated hosts

Concrete environments, for evaluating the program. -/

/-- A process of a simulated host. -/
structure Proc where
  pid : Nat
  /-- The text its link `/proc/<pid>/ns/net` reads as; `none` when reading it fails. -/
  link : Option GoString
  /-- The network namespace it is in. -/
  ns : Ctx
  deriving DecidableEq, Repr

/-- The link text `net:[<ino>]` the kernel gives. -/
def nsLinkText (ino : Nat) : GoString := ascii "net:[" ++ decimal ino ++ ascii "]"

/-- A process whose link reads as the kernel writes it. -/
def Proc.mk1 (pid : Nat) (ino : Nat) : Proc := ⟨pid, some (nsLinkText ino), ino⟩

/-- A simulated host on which no call fails. -/
structure Host where
  procs : List Proc
  /-- The identifier the namespace given first has assigned to the namespace given second. -/
  nsid : Ctx → Ctx → Int
  /-- The one interface `ip` knows. -/
  veth : GoString
  /-- The output of `ip --json link show` for it. -/
  ipOutput : GoString
  /-- What `json.Unmarshal` makes of that output. -/
  records : List ifInfo
  /-- The order of the `range` statements. -/
  order : Nat → NsTable → NsTable

/-- The path `/proc/<pid>/ns/net`. -/
def procNsPath (pid : Nat) : GoString := ascii "/proc/" ++ decimal pid ++ ascii "/ns/net"

/-- The process whose namespace link is at `path`. -/
def Host.find (h : Host) (path : GoString) : Option Proc :=
  h.procs.find? (fun p => decide (procNsPath p.pid = path))

/-- The environment a simulated host is. -/
def Host.env (h : Host) : Env where
  ipLinkShow := fun v =>
    if v = h.veth then (h.ipOutput, none) else (ascii "Device does not exist.", some "exit status 1")
  jsonUnmarshal := fun out =>
    if out = h.ipOutput then .ok h.records else .error "invalid character"
  procDirs := h.procs.map (fun p => ascii "/proc/" ++ decimal p.pid)
  readlink := fun path =>
    match h.find path with
    | some p => (match p.link with
      | some t => .ok t
      | none => .error "permission denied")
    | none => .error "no such file or directory"
  netnsGet := none
  netnsGetFromPath := fun path =>
    match h.find path with
    | some p => .ok p.ns
    | none => .error "no such file or directory"
  netnsSet := fun _ => none
  osOpen := fun path =>
    match h.find path with
    | some _ => none
    | none => some "no such file or directory"
  getNetNsIdByFd := fun c path =>
    match h.find path with
    | some p => .ok (h.nsid c p.ns)
    | none => .error "bad file descriptor"
  range := h.order

/-- The interface name `veth0`. -/
def veth0 : GoString := ascii "veth0"

/-- The output of `ip --json link show veth0` with the given `link_netnsid`. -/
def ipOutputFor (id : Nat) : GoString :=
  ascii "[\x7b\"ifindex\":7,\"ifname\":\"veth0\",\"link_netnsid\":" ++ decimal id ++ ascii "\x7d]"

/-- Three processes in the three namespaces 100, 200 and 300. -/
def threeProcs : List Proc := [Proc.mk1 1 100, Proc.mk1 2 200, Proc.mk1 3 300]

/-- The table `getAllNetNS` builds from `threeProcs`. -/
def threeTable : NsTable := [(100, procNsPath 1), (200, procNsPath 2), (300, procNsPath 3)]

/-- The identifiers of three namespaces that have one identifier for each pair of
them, the same in both directions: 0 between 100 and 200, 1 between 100 and 300,
2 between 200 and 300; no namespace has an identifier for itself (`-1`). -/
def edgeNsid (c d : Ctx) : Int :=
  if c = d then -1
  else if c = 100 then (if d = 200 then 0 else 1)
  else if c = 200 then (if d = 100 then 0 else 2)
  else (if d = 100 then 1 else 2)

/-- The host of three namespaces with `edgeNsid`; `veth0` is in namespace 100 and its
peer in namespace 200, which namespace 100 calls 0.  The maps are visited in the
order `order`. -/
def peerHost (order : Nat → NsTable → NsTable) : Host where
  procs := threeProcs
  nsid := edgeNsid
  veth := veth0
  ipOutput := ipOutputFor 0
  records := [⟨7, veth0, 0⟩]
  order := order

/-- Every `range` visits the entries in the order of the list. -/
def listOrder : Nat → NsTable → NsTable := fun _ t => t

/-- The outer loop starts at the second entry; the inner loops visit the entries in
the order of the list. -/
def secondFirst : Nat → NsTable → NsTable := fun k t => if k = 0 then t.rotate 1 else t

/-- The scenario of the specification: namespaces A = 100 (origin), B = 200, C = 300;
from inside B, A is 3 and C is 5.  From inside A, B is `ab` and C is 1; from inside
C, A is 0 and B is 1; no namespace has an identifier for itself (`-1`). -/
def scenarioNsid (ab : Int) (c d : Ctx) : Int :=
  if c = d then -1
  else if c = 200 then (if d = 100 then 3 else 5)
  else if c = 100 then (if d = 200 then ab else 1)
  else (if d = 100 then 0 else 1)

/-- The host of the scenario; `veth0` records 3. -/
def scenarioHost (ab : Int) (order : Nat → NsTable → NsTable) : Host where
  procs := threeProcs
  nsid := scenarioNsid ab
  veth := veth0
  ipOutput := ipOutputFor 3
  records := [⟨7, veth0, 3⟩]
  order := order

/-- The host of `peerHost` where `veth0` records 9, an identifier no namespace has
assigned. -/
def strangerHost : Host where
  procs := threeProcs
  nsid := edgeNsid
  veth := veth0
  ipOutput := ipOutputFor 9
  records := [⟨7, veth0, 9⟩]
  order := listOrder

/-- A host with the single namespace 100, which is 0 to itself; `veth0` records 0. -/
def loneHost : Host where
  procs := [Proc.mk1 1 100]
  nsid := fun _ _ => 0
  veth := veth0
  ipOutput := ipOutputFor 0
  records := [⟨7, veth0, 0⟩]
  order := listOrder

/-- Five processes in five namespaces; the link of the third cannot be read. -/
def fiveHost : Host where
  procs := [Proc.mk1 1 100, Proc.mk1 2 200, ⟨3, none, 300⟩, Proc.mk1 4 400, Proc.mk1 5 500]
  nsid := fun _ _ => -1
  veth := veth0
  ipOutput := ipOutputFor 0
  records := [⟨7, veth0, 0⟩]
  order := listOrder

/-- Two processes; the link of the second reads `net`, without `:[<ino>]`. -/
def oddLinkHost : Host where
  procs := [Proc.mk1 1 100, ⟨2, some (ascii "net"), 200⟩]
  nsid := fun _ _ => -1
  veth := veth0
  ipOutput := ipOutputFor 0
  records := [⟨7, veth0, 0⟩]
  order := listOrder

/-- A host on which `ip --json link show veth0` exits with success and prints `[]`. -/
def emptyArrayHost : Host where
  procs := threeProcs
  nsid := edgeNsid
  veth := veth0
  ipOutput := ascii "[]"
  records := []
  order := listOrder

/-- The scenario host with a fault injected in the middle of the loop: the netlink
query fails for a thread that is in namespace 200. -/
def faultyEnv : Env :=
  { (scenarioHost 0 listOrder).env with
    getNetNsIdByFd := fun c path =>
      if c = 200 then .error "injected failure" else (scenarioHost 0 listOrder).env.getNetNsIdByFd c path }

/-- The host of `peerHost`, the outer loop starting at the second entry, on which the
kernel refuses every `netns.Set` on the handle of `netns.Get()`. -/
def stuckEnv : Env :=
  { (peerHost secondFirst).env with
    netnsSet := fun h =>
      match h with
      | .current _ => some "operation not permitted"
      | .fromPath _ _ => none }

/-! ## Facts about the string functions -/

theorem digitChar_toNat : ∀ d, d < 10 → (Nat.digitChar d).toNat = d + 48 := by decide

theorem parseDigits_append (a b : GoString) (acc : Nat) :
    parseDigits (a ++ b) acc = (parseDigits a acc).bind (parseDigits b) := by
  induction a generalizing acc with
  | nil => simp [parseDigits]
  | cons c cs ih =>
    by_cases h : 48 ≤ c ∧ c ≤ 57
    · simp [parseDigits, h, ih]
    · simp [parseDigits, h]

theorem parseDigits_isDigit {a : GoString} {acc v : Nat} (h : parseDigits a acc = some v) :
    ∀ c ∈ a, 48 ≤ c ∧ c ≤ 57 := by
  induction a generalizing acc with
  | nil => simp
  | cons c cs ih =>
    by_cases hc : 48 ≤ c ∧ c ≤ 57
    · simp only [parseDigits, hc, and_self, if_true] at h
      intro x hx
      rcases List.mem_cons.1 hx with rfl | hx
      · exact hc
      · exact ih h x hx
    · simp [parseDigits, hc] at h

/-- The digits `Nat.toDigitsCore` puts in front of `ds` parse back to `n`. -/
theorem toDigitsCore_spec (fuel : Nat) : ∀ (n : Nat) (ds : List Char), n < fuel →
    ∃ a : GoString, (Nat.toDigitsCore 10 fuel n ds).map Char.toNat = a ++ ds.map Char.toNat ∧
      a ≠ [] ∧ ∀ acc, parseDigits a acc = some (acc * 10 ^ a.length + n) := by
  induction fuel with
  | zero => intro n ds h; omega
  | succ fuel ih =>
    intro n ds h
    have hd : (Nat.digitChar (n % 10)).toNat = n % 10 + 48 :=
      digitChar_toNat _ (Nat.mod_lt _ (by decide))
    by_cases h0 : n / 10 = 0
    · refine ⟨[n % 10 + 48], ?_, by simp, ?_⟩
      · simp [Nat.toDigitsCore, h0, hd]
      · intro acc
        have : n % 10 = n := by omega
        simp [parseDigits]
        omega
    · obtain ⟨a, ha, hne, hp⟩ := ih (n / 10) (Nat.digitChar (n % 10) :: ds) (by omega)
      refine ⟨a ++ [n % 10 + 48], ?_, by simp, ?_⟩
      · simp [Nat.toDigitsCore, h0, ha, hd]
      · intro acc
        rw [parseDigits_append, hp]
        have hdm := Nat.div_add_mod n 10
        have hlt : n % 10 < 10 := Nat.mod_lt _ (by decide)
        simp only [parseDigits, List.length_append, List.length_singleton, pow_succ,
          Option.some_bind, Nat.le_add_left, true_and, Nat.add_sub_cancel]
        rw [if_pos (by omega)]
        congr 1
        rw [Nat.add_mul, Nat.mul_assoc, Nat.add_assoc]
        congr 1
        omega

theorem parseDigits_decimal (n : Nat) : parseDigits (decimal n) 0 = some n := by
  obtain ⟨a, ha, _, hp⟩ := toDigitsCore_spec (n + 1) n [] (Nat.lt_succ_self n)
  simp only [List.map_nil, List.append_nil] at ha
  simp [decimal, Nat.toDigits, ha, hp]

theorem decimal_ne_nil (n : Nat) : decimal n ≠ [] := by
  obtain ⟨a, ha, hne, _⟩ := toDigitsCore_spec (n + 1) n [] (Nat.lt_succ_self n)
  simp only [List.map_nil, List.append_nil] at ha
  simpa [decimal, Nat.toDigits, ha] using hne

theorem decimal_isDigit (n : Nat) : ∀ c ∈ decimal n, 48 ≤ c ∧ c ≤ 57 :=
  parseDigits_isDigit (parseDigits_decimal n)

theorem strconvAtoi_decimal (n : Nat) (hn : n < 2 ^ 63) : strconvAtoi (decimal n) = some (n : Int) := by
  have hp := parseDigits_decimal n
  have hd := decimal_isDigit n
  cases hdec : decimal n with
  | nil => exact absurd hdec (decimal_ne_nil n)
  | cons c rest =>
    have hc := hd c (by simp [hdec])
    have h45 : c ≠ 45 := by omega
    have h43 : c ≠ 43 := by omega
    rw [hdec] at hp
    have hn2 : n < 9223372036854775808 := by simpa using hn
    simp [strconvAtoi, h45, h43, hp, hn2]

theorem stringsSplit_ne_nil (sep : Nat) (s : GoString) : stringsSplit sep s ≠ [] := by
  cases s with
  | nil => simp [stringsSplit]
  | cons c cs =>
    by_cases h : c = sep
    · simp [stringsSplit, h]
    · cases hs : stringsSplit sep cs <;> simp [stringsSplit, h, hs]

theorem stringsSplit_of_not_mem {sep : Nat} {s : GoString} (h : sep ∉ s) :
    stringsSplit sep s = [s] := by
  induction s with
  | nil => rfl
  | cons c cs ih =>
    have hc : c ≠ sep := fun e => h (by simp [e])
    have hcs : sep ∉ cs := fun e => h (List.mem_cons_of_mem _ e)
    simp [stringsSplit, hc, ih hcs]

theorem stringsSplit_append_sep {sep : Nat} {a : GoString} (b : GoString) (h : sep ∉ a) :
    stringsSplit sep (a ++ sep :: b) = a :: stringsSplit sep b := by
  induction a with
  | nil => simp [stringsSplit]
  | cons c cs ih =>
    have hc : c ≠ sep := fun e => h (by simp [e])
    have hcs : sep ∉ cs := fun e => h (List.mem_cons_of_mem _ e)
    simp [stringsSplit, hc, ih hcs]

/-- The link text `t:[n]` parses to `n`. -/
theorem parseNSLink_text (t : GoString) (n : Nat) (ht : colon ∉ t) (hn : n < 2 ^ 63) :
    parseNSLink (t ++ ascii ":[" ++ decimal n ++ ascii "]") = .ok (n : Int) := by
  have h1 : ascii ":[" = [colon, 91] := by decide
  have h2 : ascii "]" = [93] := by decide
  have hmem : colon ∉ (91 :: (decimal n ++ [93])) := by
    intro hm
    rcases List.mem_cons.1 hm with hm | hm
    · exact absurd hm (by decide)
    · rcases List.mem_append.1 hm with hm | hm
      · have := decimal_isDigit n colon hm
        simp [colon] at this
      · exact absurd (List.mem_singleton.1 hm) (by decide)
  have hsplit : stringsSplit colon (t ++ ascii ":[" ++ decimal n ++ ascii "]")
      = [t, 91 :: (decimal n ++ [93])] := by
    rw [h1, h2]
    have : t ++ [colon, 91] ++ decimal n ++ [93] = t ++ colon :: (91 :: (decimal n ++ [93])) := by
      simp
    rw [this, stringsSplit_append_sep _ ht, stringsSplit_of_not_mem hmem]
  have hlen : ¬ ((91 :: (decimal n ++ [93])).length < 2) := by simp
  have hmid : (List.drop 1 (91 :: (decimal n ++ [93]))).take ((91 :: (decimal n ++ [93])).length - 2)
      = decimal n := by
    simp
  unfold parseNSLink
  simp only [hsplit, List.getElem?_cons_succ, List.getElem?_cons_zero, hlen, if_false, hmid,
    strconvAtoi_decimal n hn]


/-! ## `getNSIno` on the link text the kernel writes -/

/-- Claim C9: for every namespace type `t` without `':'` and every natural number `n`
below `2 ^ 63`, when the link `/proc/<pid>/ns/<t>` reads as the text `t:[n]` (`n` in
decimal), `getNSIno` returns `(n, nil)`. -/
theorem getNSIno_link_text (readlink : GoString → Except String GoString) (t pid : GoString)
    (n : Nat) (ht : colon ∉ t) (hn : n < 2 ^ 63)
    (hlink : readlink (nsLinkPath t pid) = .ok (t ++ ascii ":[" ++ decimal n ++ ascii "]")) :
    getNSIno readlink t pid = .ok (n : Int) := by
  unfold getNSIno
  rw [hlink]
  exact parseNSLink_text t n ht hn

/-- Witness of C9: the link `/proc/4242/ns/net` reads `net:[4026532431]`, and
`getNSIno("net", "4242")` yields 4026532431. -/
theorem getNSIno_link_text_witness :
    colon ∉ ascii "net" ∧ 4026532431 < 2 ^ 63 ∧
    (fun p => if p = ascii "/proc/4242/ns/net" then Except.ok (ascii "net:[4026532431]")
        else Except.error "no such file or directory" : GoString → Except String GoString)
        (nsLinkPath (ascii "net") (ascii "4242"))
      = .ok (ascii "net" ++ ascii ":[" ++ decimal 4026532431 ++ ascii "]") ∧
    getNSIno (fun p => if p = ascii "/proc/4242/ns/net" then .ok (ascii "net:[4026532431]")
        else .error "no such file or directory") (ascii "net") (ascii "4242")
      = .ok ((4026532431 : Nat) : Int) :=
  ⟨by decide, by decide, by decide,
    getNSIno_link_text (fun p => if p = ascii "/proc/4242/ns/net"
        then .ok (ascii "net:[4026532431]") else .error "no such file or directory")
      (ascii "net") (ascii "4242") 4026532431 (by decide) (by decide) (by decide)⟩

/-! ## `getLinkNetNSID` -/

/-- Claim C8, the failing input: when `ip --json link show` exits with success and
`json.Unmarshal` leaves the empty slice (as it does on the output `[]`, and on
`null`), `getLinkNetNSID` returns no parse error: the index expression `m[0]` aborts
the program. -/
theorem getLinkNetNSID_empty_aborts (env : Env) (vethName : GoString)
    (hexit : (env.ipLinkShow vethName).2 = none)
    (hjson : env.jsonUnmarshal (env.ipLinkShow vethName).1 = .ok []) :
    getLinkNetNSID env vethName = .abort (.indexOutOfRange 0 0) := by
  simp [getLinkNetNSID, hexit, hjson]

/-- Witness of C8: the host on which `ip` prints `[]`. -/
theorem getLinkNetNSID_empty_aborts_witness :
    (emptyArrayHost.env.ipLinkShow veth0) = (ascii "[]", none) ∧
    emptyArrayHost.env.jsonUnmarshal (ascii "[]") = .ok [] ∧
    getLinkNetNSID emptyArrayHost.env veth0 = .abort (.indexOutOfRange 0 0) :=
  ⟨by decide, by decide, getLinkNetNSID_empty_aborts emptyArrayHost.env veth0 (by decide) (by decide)⟩

/-- The other results of `getLinkNetNSID`: a failed command gives the error of line 91
and no identifier, an output `json.Unmarshal` rejects gives the error of line 97, and
a decoded list with a first record gives that record's `link_netnsid`. -/
theorem getLinkNetNSID_cases (env : Env) (vethName : GoString) :
    (∀ e, (env.ipLinkShow vethName).2 = some e →
      getLinkNetNSID env vethName = .err (.linkQuery vethName e (env.ipLinkShow vethName).1)) ∧
    (∀ e, (env.ipLinkShow vethName).2 = none →
      env.jsonUnmarshal (env.ipLinkShow vethName).1 = .error e →
      getLinkNetNSID env vethName = .err (.parseJson e (env.ipLinkShow vethName).1)) ∧
    (∀ r rs, (env.ipLinkShow vethName).2 = none →
      env.jsonUnmarshal (env.ipLinkShow vethName).1 = .ok (r :: rs) →
      getLinkNetNSID env vethName = .ok r.LinkNetnsId) := by
  refine ⟨?_, ?_, ?_⟩
  · intro e h; simp [getLinkNetNSID, h]
  · intro e h1 h2; simp [getLinkNetNSID, h1, h2]
  · intro r rs h1 h2; simp [getLinkNetNSID, h1, h2]

/-! ## A failed link query -/

/-- Claim C6: when the link query fails, `getNetNSFromVeth` returns the error of the
link query, and all it has done is run the `ip` command: no `netns.Set`, no
enumeration, no probe, and the thread is in the namespace it was in. -/
theorem getNetNSFromVeth_link_failure (env : Env) (ctx0 : Ctx) (vethName : GoString) (e : String)
    (hfail : (env.ipLinkShow vethName).2 = some e) :
    (getNetNSFromVeth env ctx0 vethName).1
        = .err (.linkQuery vethName e (env.ipLinkShow vethName).1) ∧
    (getNetNSFromVeth env ctx0 vethName).2 = { ctx := ctx0, trace := [.ipLinkShow vethName] } ∧
    setCalls (getNetNSFromVeth env ctx0 vethName).2.trace = [] := by
  have h := (getLinkNetNSID_cases env vethName).1 e hfail
  simp [getNetNSFromVeth, h, setCalls]

/-- Witness of C6: the interface `eth7` does not exist on the host. -/
theorem getNetNSFromVeth_link_failure_witness :
    ((peerHost listOrder).env.ipLinkShow (ascii "eth7")).2 = some "exit status 1" ∧
    (getNetNSFromVeth (peerHost listOrder).env 100 (ascii "eth7")).1
        = .err (.linkQuery (ascii "eth7") "exit status 1"
            ((peerHost listOrder).env.ipLinkShow (ascii "eth7")).1) ∧
    (getNetNSFromVeth (peerHost listOrder).env 100 (ascii "eth7")).2
        = { ctx := 100, trace := [.ipLinkShow (ascii "eth7")] } ∧
    setCalls (getNetNSFromVeth (peerHost listOrder).env 100 (ascii "eth7")).2.trace = [] :=
  ⟨by decide, getNetNSFromVeth_link_failure (peerHost listOrder).env 100 (ascii "eth7")
    "exit status 1" (by decide)⟩

/-! ## Evaluations on the simulated hosts -/

/-- Claim C7, the failing input: on the host where the link of process 2 reads `net`,
`strings.Split(i, ":")[1]` aborts `getAllNetNS`: the process is not skipped with a
warning and no table is returned. -/
theorem getAllNetNS_odd_link_aborts :
    oddLinkHost.env.readlink (procNsPath 2) = .ok (ascii "net") ∧
    getAllNetNS oddLinkHost.env
      = (.abort (.indexOutOfRange 1 1),
         [.glob, .readlink (procNsPath 1), .readlink (procNsPath 2)]) := by
  decide

/-- The five processes of claim C7, one of them unreadable: a table of exactly 4
entries and one warning. -/
theorem getAllNetNS_five_procs :
    ∃ t, (getAllNetNS fiveHost.env).1 = .ok t ∧ t.length = 4 ∧
      t.map Prod.fst = [100, 200, 400, 500] ∧
      (warnings (getAllNetNS fiveHost.env).2).length = 1 :=
  ⟨[(100, procNsPath 1), (200, procNsPath 2), (400, procNsPath 4), (500, procNsPath 5)],
    by decide, by decide, by decide, by decide⟩

/-- Claim C1, the failing input: three namespaces with the identifiers `edgeNsid`,
in which every namespace gives the other two different identifiers; `veth0` is in
namespace 100 and records 0, the identifier namespace 100 has assigned to namespace
200 and to no other.  When the outer loop starts at the entry of namespace 200,
`getNetNSFromVeth` returns 100, the inode of the origin; when it starts at the
entry of namespace 100, it returns 200. -/
theorem getNetNSFromVeth_order_dependent :
    (getAllNetNS (peerHost secondFirst).env).1 = .ok threeTable ∧
    (∀ k, ((peerHost secondFirst).env.range k threeTable).Perm threeTable) ∧
    (∀ c ∈ [100, 200, 300], ∀ d ∈ [100, 200, 300], ∀ d2 ∈ [100, 200, 300],
      d ≠ c → d2 ≠ c → edgeNsid c d = edgeNsid c d2 → d = d2) ∧
    (∀ d ∈ [100, 200, 300], (edgeNsid 100 d = 0 ↔ d = 200)) ∧
    (getNetNSFromVeth (peerHost secondFirst).env 100 veth0).1 = .ok 100 ∧
    (getNetNSFromVeth (peerHost listOrder).env 100 veth0).1 = .ok 200 := by
  refine ⟨by decide, ?_, by decide, by decide, by decide, by decide⟩
  intro k
  by_cases hk : k = 0
  · simp only [peerHost, Host.env, secondFirst, hk, if_true]
    exact List.rotate_perm _ _
  · simp [peerHost, Host.env, secondFirst, hk]

/-- Counterexample to C2: in the scenario of the specification (table
`A:100, B:200, C:300`, from inside `B` the identifier of `A` is 3 and that of `C` is
5, `veth0` records 3) `getNetNSFromVeth` returns 100, the inode of `A`, and not 200:
in every order when no other identifier is 3, and, when `A` calls `B` 3 as well,
whenever the outer loop enters `B` before `A`. -/
theorem scenario_returns_probed_inode :
    (getAllNetNS (scenarioHost 0 listOrder).env).1 = .ok threeTable ∧
    getLinkNetNSID (scenarioHost 0 listOrder).env veth0 = .ok 3 ∧
    (scenarioHost 0 listOrder).env.netnsGetFromPath (procNsPath 2) = .ok 200 ∧
    (scenarioHost 0 listOrder).env.getNetNsIdByFd 200 (procNsPath 1) = .ok 3 ∧
    (scenarioHost 0 listOrder).env.getNetNsIdByFd 200 (procNsPath 3) = .ok 5 ∧
    (getNetNSFromVeth (scenarioHost 0 listOrder).env 100 veth0).1 = .ok 100 ∧
    (getNetNSFromVeth (scenarioHost 0 listOrder).env 100 veth0).1 ≠ .ok 200 ∧
    (scenarioHost 3 secondFirst).env.getNetNsIdByFd 200 (procNsPath 1) = .ok 3 ∧
    (getNetNSFromVeth (scenarioHost 3 secondFirst).env 100 veth0).1 = .ok 100 := by
  decide

/-- Counterexample to C4: on a host where no probe matches, the third iteration of
the outer loop starts with the thread in namespace 200, the candidate of the second
iteration, not in the original namespace 100. -/
theorem outer_iteration_starts_elsewhere :
    enterings (getNetNSFromVeth strangerHost.env 100 veth0).2.trace
      = [(100, 100), (100, 200), (200, 300)] ∧
    ¬ (∀ p ∈ enterings (getNetNSFromVeth strangerHost.env 100 veth0).2.trace, p.1 = 100) := by
  decide

/-- Counterexample to C5: the table has exactly one entry, the namespace is 0 to
itself and `veth0` records 0: `getNetNSFromVeth` returns the inode 100. -/
theorem single_entry_returns_inode :
    (getAllNetNS loneHost.env).1 = .ok [(100, procNsPath 1)] ∧
    (getNetNSFromVeth loneHost.env 100 veth0).1 = .ok 100 ∧
    (getNetNSFromVeth loneHost.env 100 veth0).1 ≠ .err (.notFound veth0) := by
  decide


/-! ## The steps of the loops -/

theorem log_ctx (w : World) (e : Event) : (w.log e).ctx = w.ctx := rfl

theorem log_trace (w : World) (e : Event) : (w.log e).trace = w.trace ++ [e] := rfl

theorem netnsSet_trace (env : Env) (w : World) (h : NsHandle) :
    ∃ ok, (netnsSet env w h).2.trace = w.trace ++ [.netnsSet w.ctx h ok] := by
  unfold netnsSet
  cases env.netnsSet h with
  | some e => exact ⟨false, rfl⟩
  | none => exact ⟨true, rfl⟩

theorem netnsSet_ok {env : Env} {w w2 : World} {h : NsHandle}
    (hs : netnsSet env w h = (none, w2)) : env.netnsSet h = none ∧ w2.ctx = h.ns := by
  unfold netnsSet at hs
  cases he : env.netnsSet h with
  | some e => rw [he] at hs; cases hs
  | none => rw [he] at hs; cases hs; exact ⟨rfl, rfl⟩

theorem netnsSet_fail {env : Env} {w w2 : World} {h : NsHandle} {e : String}
    (hs : netnsSet env w h = (some e, w2)) : env.netnsSet h = some e ∧ w2.ctx = w.ctx := by
  unfold netnsSet at hs
  cases he : env.netnsSet h with
  | some e2 => rw [he] at hs; cases hs; exact ⟨rfl, rfl⟩
  | none => rw [he] at hs; cases hs

theorem outerLoop_open_fail {env : Env} (orig : NsHandle) (link : Int) (t : NsTable) (i : Nat)
    (ino : Int) {p : GoString} (rest : NsTable) (w : World) (ds : List Deferred) {e : String}
    (ho : env.netnsGetFromPath p = .error e) :
    outerLoop env orig link t i ((ino, p) :: rest) w ds
      = (some (.err (.sys e)), w.log (.netnsGetFromPath p), ds) := by
  simp [outerLoop, ho]

theorem outerLoop_set_fail {env : Env} (orig : NsHandle) (link : Int) (t : NsTable) (i : Nat)
    (ino : Int) {p : GoString} (rest : NsTable) {w w2 : World} (ds : List Deferred) {ns : Ctx}
    {e : String} (ho : env.netnsGetFromPath p = .ok ns)
    (hs : netnsSet env (w.log (.netnsGetFromPath p)) (.fromPath p ns) = (some e, w2)) :
    outerLoop env orig link t i ((ino, p) :: rest) w ds
      = (some (.err (.sys e)), w2, .closeHandle (.fromPath p ns) :: ds) := by
  simp [outerLoop, ho, hs]

theorem outerLoop_return {env : Env} (orig : NsHandle) (link : Int) (t : NsTable) (i : Nat)
    (ino : Int) {p : GoString} (rest : NsTable) {w w2 w3 : World} (ds : List Deferred) {ns : Ctx}
    {r : Outcome Int} (ho : env.netnsGetFromPath p = .ok ns)
    (hs : netnsSet env (w.log (.netnsGetFromPath p)) (.fromPath p ns) = (none, w2))
    (hi : innerLoop env link (env.range (i + 1) t) w2 = (some r, w3)) :
    outerLoop env orig link t i ((ino, p) :: rest) w ds
      = (some r, w3, .netnsSet orig :: .closeHandle (.fromPath p ns) :: ds) := by
  simp [outerLoop, ho, hs, hi]

theorem outerLoop_continue {env : Env} (orig : NsHandle) (link : Int) (t : NsTable) (i : Nat)
    (ino : Int) {p : GoString} (rest : NsTable) {w w2 w3 : World} (ds : List Deferred) {ns : Ctx}
    (ho : env.netnsGetFromPath p = .ok ns)
    (hs : netnsSet env (w.log (.netnsGetFromPath p)) (.fromPath p ns) = (none, w2))
    (hi : innerLoop env link (env.range (i + 1) t) w2 = (none, w3)) :
    outerLoop env orig link t i ((ino, p) :: rest) w ds
      = outerLoop env orig link t (i + 1) rest w3
          (.netnsSet orig :: .closeHandle (.fromPath p ns) :: ds) := by
  simp [outerLoop, ho, hs, hi]

/-- The four ways an iteration of the outer loop goes. -/
theorem outerLoop_cons_cases (env : Env) (orig : NsHandle) (link : Int) (t : NsTable) (i : Nat)
    (ino : Int) (p : GoString) (rest : NsTable) (w : World) (ds : List Deferred) :
    (∃ e, env.netnsGetFromPath p = .error e ∧
      outerLoop env orig link t i ((ino, p) :: rest) w ds
        = (some (.err (.sys e)), w.log (.netnsGetFromPath p), ds)) ∨
    (∃ ns e w2, env.netnsGetFromPath p = .ok ns ∧
      netnsSet env (w.log (.netnsGetFromPath p)) (.fromPath p ns) = (some e, w2) ∧
      outerLoop env orig link t i ((ino, p) :: rest) w ds
        = (some (.err (.sys e)), w2, .closeHandle (.fromPath p ns) :: ds)) ∨
    (∃ ns w2 r w3, env.netnsGetFromPath p = .ok ns ∧
      netnsSet env (w.log (.netnsGetFromPath p)) (.fromPath p ns) = (none, w2) ∧
      innerLoop env link (env.range (i + 1) t) w2 = (some r, w3) ∧
      outerLoop env orig link t i ((ino, p) :: rest) w ds
        = (some r, w3, .netnsSet orig :: .closeHandle (.fromPath p ns) :: ds)) ∨
    (∃ ns w2 w3, env.netnsGetFromPath p = .ok ns ∧
      netnsSet env (w.log (.netnsGetFromPath p)) (.fromPath p ns) = (none, w2) ∧
      innerLoop env link (env.range (i + 1) t) w2 = (none, w3) ∧
      outerLoop env orig link t i ((ino, p) :: rest) w ds
        = outerLoop env orig link t (i + 1) rest w3
            (.netnsSet orig :: .closeHandle (.fromPath p ns) :: ds)) := by
  cases ho : env.netnsGetFromPath p with
  | error e => exact Or.inl ⟨e, rfl, outerLoop_open_fail orig link t i ino rest w ds ho⟩
  | ok ns =>
    cases hs : netnsSet env (w.log (.netnsGetFromPath p)) (.fromPath p ns) with
    | mk r w2 =>
      cases r with
      | some e =>
        exact Or.inr (Or.inl ⟨ns, e, w2, rfl, hs, outerLoop_set_fail orig link t i ino rest ds ho hs⟩)
      | none =>
        cases hi : innerLoop env link (env.range (i + 1) t) w2 with
        | mk r w3 =>
          cases r with
          | some r =>
            exact Or.inr (Or.inr (Or.inl ⟨ns, w2, r, w3, rfl, hs, hi,
              outerLoop_return orig link t i ino rest ds ho hs hi⟩))
          | none =>
            exact Or.inr (Or.inr (Or.inr ⟨ns, w2, w3, rfl, hs, hi,
              outerLoop_continue orig link t i ino rest ds ho hs hi⟩))


/-! ## What the loops leave unchanged -/

theorem enterings_append (a b : List Event) : enterings (a ++ b) = enterings a ++ enterings b := by
  induction a with
  | nil => rfl
  | cons e es ih =>
    cases e with
    | netnsSet c h ok =>
      cases h with
      | current ns => simpa [enterings] using ih
      | fromPath p ns => simp [enterings, ih]
    | _ => simpa [enterings] using ih

theorem getLocalNetNSID_ctx (env : Env) (w : World) (p : GoString) :
    (getLocalNetNSID env w p).2.ctx = w.ctx := by
  unfold getLocalNetNSID
  cases env.osOpen p with
  | some e => rfl
  | none => cases env.getNetNsIdByFd w.ctx p <;> rfl

theorem getLocalNetNSID_enterings (env : Env) (w : World) (p : GoString) :
    enterings (getLocalNetNSID env w p).2.trace = enterings w.trace := by
  unfold getLocalNetNSID
  cases env.osOpen p with
  | some e => simp [log_trace, enterings_append, enterings]
  | none => cases env.getNetNsIdByFd w.ctx p <;> simp [log_trace, enterings_append, enterings]

/-- The inner loop leaves the thread where it is and enters no namespace. -/
theorem innerLoop_frame (env : Env) (link : Int) (inner : NsTable) :
    ∀ w, (innerLoop env link inner w).2.ctx = w.ctx ∧
      enterings (innerLoop env link inner w).2.trace = enterings w.trace := by
  induction inner with
  | nil => intro w; exact ⟨rfl, rfl⟩
  | cons d rest ih =>
    intro w
    obtain ⟨ino, p⟩ := d
    have hc := getLocalNetNSID_ctx env w p
    have he := getLocalNetNSID_enterings env w p
    unfold innerLoop
    cases h : getLocalNetNSID env w p with
    | mk r w1 =>
      rw [h] at hc he
      cases r with
      | err e => exact ⟨hc, he⟩
      | abort c => exact ⟨hc, he⟩
      | ok id =>
        by_cases hid : id = link
        · simpa [hid] using And.intro hc he
        · simp only [hid, if_false]
          rw [(ih w1).1, (ih w1).2]; exact ⟨hc, he⟩

/-! ## The thread returns to the namespace it came from -/

theorem outerLoop_restoreInv (env : Env) (orig : NsHandle) (link : Int) (t : NsTable)
    (outer : NsTable) : ∀ (i : Nat) (w : World) (ds : List Deferred), RestoreInv orig w ds →
      RestoreInv orig (outerLoop env orig link t i outer w ds).2.1
        (outerLoop env orig link t i outer w ds).2.2 := by
  induction outer with
  | nil => intro i w ds h; exact h
  | cons c rest ih =>
    intro i w ds h
    obtain ⟨ino, p⟩ := c
    have hinv : ∀ (w3 : World) (x : NsHandle),
        RestoreInv orig w3 (Deferred.netnsSet orig :: Deferred.closeHandle x :: ds) := by
      intro w3 x
      refine ⟨?_, Or.inr (List.mem_cons_self _ _)⟩
      intro y hy
      simp only [List.mem_cons] at hy
      rcases hy with hy | hy | hy
      · cases hy; rfl
      · cases hy
      · exact h.1 y hy
    rcases outerLoop_cons_cases env orig link t i ino p rest w ds with
      ⟨e, _, heq⟩ | ⟨ns, e, w2, _, hs, heq⟩ | ⟨ns, w2, r, w3, _, _, _, heq⟩ |
      ⟨ns, w2, w3, _, _, _, heq⟩
    · rw [heq]; exact h
    · rw [heq]
      refine ⟨?_, ?_⟩
      · intro y hy
        simp only [List.mem_cons] at hy
        rcases hy with hy | hy
        · cases hy
        · exact h.1 y hy
      · rcases h.2 with h2 | h2
        · exact Or.inl ((netnsSet_fail hs).2.trans h2)
        · exact Or.inr (List.mem_cons_of_mem _ h2)
    · rw [heq]; exact hinv w3 _
    · rw [heq]; exact ih (i + 1) w3 _ (hinv w3 _)

theorem runDeferred_ctx (env : Env) (orig : NsHandle) (hset : env.netnsSet orig = none)
    (ds : List Deferred) : ∀ w, RestoreInv orig w ds → (runDeferred env ds w).ctx = orig.ns := by
  induction ds with
  | nil =>
    intro w h
    rcases h.2 with h2 | h2
    · exact h2
    · cases h2
  | cons d ds ih =>
    intro w h
    cases d with
    | closeHandle x =>
      unfold runDeferred
      apply ih
      refine ⟨fun y hy => h.1 y (List.mem_cons_of_mem _ hy), ?_⟩
      rcases h.2 with h2 | h2
      · exact Or.inl h2
      · simp only [List.mem_cons] at h2
        rcases h2 with h2 | h2
        · cases h2
        · exact Or.inr h2
    | netnsSet x =>
      have hx : x = orig := h.1 x (List.mem_cons_self _ _)
      subst hx
      unfold runDeferred
      apply ih
      refine ⟨fun y hy => h.1 y (List.mem_cons_of_mem _ hy), Or.inl ?_⟩
      simp [netnsSet, hset]

theorem correlate_ctx (env : Env) (veth : GoString) (link : Int) (t : NsTable) (w : World)
    (hset : env.netnsSet (.current w.ctx) = none) :
    (correlate env veth link t w).2.ctx = w.ctx := by
  unfold correlate
  cases env.netnsGet with
  | some e => rfl
  | none =>
    exact runDeferred_ctx env (.current w.ctx) hset _ _
      (outerLoop_restoreInv env (.current w.ctx) link t _ 0 _ _
        ⟨by intro h hh; simp at hh, Or.inl rfl⟩)

/-- When the kernel carries out `netns.Set(origNS)`, the thread is, once the function
has returned, in the namespace it was in when the function was called. -/
theorem getNetNSFromVeth_ctx_of_restore_ok (env : Env) (ctx0 : Ctx) (vethName : GoString)
    (hrestore : env.netnsSet (.current ctx0) = none) :
    (getNetNSFromVeth env ctx0 vethName).2.ctx = ctx0 := by
  unfold getNetNSFromVeth
  cases getLinkNetNSID env vethName with
  | err e => rfl
  | abort c => rfl
  | ok link =>
    cases hall : getAllNetNS env with
    | mk r evs =>
      cases r with
      | err e => rfl
      | abort c => rfl
      | ok t => exact correlate_ctx env vethName link t _ hrestore

/-! ## Where the thread is when an iteration of the outer loop starts -/

theorem chained_of_chainInv {c0 : Ctx} {w : World} (h : ChainInv c0 w) :
    Chained c0 (enterings w.trace) := by
  unfold Chained
  unfold ChainInv at h
  rw [← h, List.dropLast_concat]

theorem chainInv_of_frame {c0 : Ctx} {w w2 : World} (h : ChainInv c0 w) (hc : w2.ctx = w.ctx)
    (he : enterings w2.trace = enterings w.trace) : ChainInv c0 w2 := by
  unfold ChainInv at *
  rw [hc, he]; exact h

theorem enterings_getFromPath (w : World) (p : GoString) :
    enterings (w.log (.netnsGetFromPath p)).trace = enterings w.trace := by
  simp [log_trace, enterings_append, enterings]

theorem outerLoop_chained (env : Env) (orig : NsHandle) (link : Int) (t : NsTable) (c0 : Ctx)
    (outer : NsTable) : ∀ (i : Nat) (w : World) (ds : List Deferred), ChainInv c0 w →
      Chained c0 (enterings (outerLoop env orig link t i outer w ds).2.1.trace) := by
  induction outer with
  | nil => intro i w ds h; exact chained_of_chainInv h
  | cons c rest ih =>
    intro i w ds h
    obtain ⟨ino, p⟩ := c
    have hstep : ∀ ns w2, netnsSet env (w.log (.netnsGetFromPath p)) (.fromPath p ns) = (none, w2) →
        ChainInv c0 w2 := by
      intro ns w2 hs
      have hok := (netnsSet_ok hs).1
      have hw2 : w2 = { ctx := ns, trace := (w.log (.netnsGetFromPath p)).trace ++
          [.netnsSet (w.log (.netnsGetFromPath p)).ctx (.fromPath p ns) true] } := by
        have := hs
        simp only [netnsSet, hok] at this
        exact (Prod.mk.inj this).2.symm
      unfold ChainInv at h ⊢
      rw [hw2]
      simp only [enterings_append, enterings_getFromPath, enterings, log_ctx, List.map_append,
        List.map_cons, List.map_nil, List.append_assoc]
      rw [← List.append_assoc, h]
      rfl
    rcases outerLoop_cons_cases env orig link t i ino p rest w ds with
      ⟨e, _, heq⟩ | ⟨ns, e, w2, _, hs, heq⟩ | ⟨ns, w2, r, w3, _, hs, hi, heq⟩ |
      ⟨ns, w2, w3, _, hs, hi, heq⟩
    · rw [heq]
      exact chained_of_chainInv (chainInv_of_frame h rfl (enterings_getFromPath w p))
    · rw [heq]
      have hfail := (netnsSet_fail hs).1
      have hw2 : w2 = (w.log (.netnsGetFromPath p)).log
          (.netnsSet (w.log (.netnsGetFromPath p)).ctx (.fromPath p ns) false) := by
        have := hs
        simp only [netnsSet, hfail] at this
        exact (Prod.mk.inj this).2.symm
      unfold Chained
      unfold ChainInv at h
      rw [hw2]
      simp only [log_trace, enterings_append, enterings, log_ctx, List.map_append,
        List.map_cons, List.map_nil, List.append_nil]
      rw [h, ← List.cons_append, List.dropLast_concat]
    · rw [heq]
      have hf := innerLoop_frame env link (env.range (i + 1) t) w2
      rw [hi] at hf
      exact chained_of_chainInv (chainInv_of_frame (hstep ns w2 hs) hf.1 hf.2)
    · rw [heq]
      have hf := innerLoop_frame env link (env.range (i + 1) t) w2
      rw [hi] at hf
      exact ih (i + 1) w3 _ (chainInv_of_frame (hstep ns w2 hs) hf.1 hf.2)

theorem runDeferred_enterings (env : Env) (c : Ctx) (ds : List Deferred) :
    ∀ w, (∀ h, Deferred.netnsSet h ∈ ds → h = .current c) →
      enterings (runDeferred env ds w).trace = enterings w.trace := by
  induction ds with
  | nil => intro w _; rfl
  | cons d ds ih =>
    intro w h
    have hrest : ∀ y, Deferred.netnsSet y ∈ ds → y = .current c :=
      fun y hy => h y (List.mem_cons_of_mem _ hy)
    cases d with
    | closeHandle x =>
      unfold runDeferred
      rw [ih _ hrest]
      simp [log_trace, enterings_append, enterings]
    | netnsSet x =>
      have hx : x = .current c := h x (List.mem_cons_self _ _)
      subst hx
      unfold runDeferred
      rw [ih _ hrest]
      obtain ⟨ok, htr⟩ := netnsSet_trace env w (.current c)
      rw [htr]
      simp [enterings_append, enterings]

theorem getAllNetNSLoop_abort {env : Env} (f : GoString) (fs : List GoString) (tbl : NsTable)
    {c : Crash} (h : getNSIno env.readlink (ascii "net") (filepathSplit f).2 = .abort c) :
    getAllNetNSLoop env (f :: fs) tbl
      = (.abort c, [.readlink (nsLinkPath (ascii "net") (filepathSplit f).2)]) := by
  simp [getAllNetNSLoop, h]

theorem getAllNetNSLoop_err {env : Env} (f : GoString) (fs : List GoString) (tbl : NsTable)
    {e : GoError} (h : getNSIno env.readlink (ascii "net") (filepathSplit f).2 = .err e) :
    getAllNetNSLoop env (f :: fs) tbl
      = ((getAllNetNSLoop env fs tbl).1,
          .readlink (nsLinkPath (ascii "net") (filepathSplit f).2) ::
            .warn (filepathSplit f).2 e :: (getAllNetNSLoop env fs tbl).2) := by
  simp [getAllNetNSLoop, h]

theorem getAllNetNSLoop_ok {env : Env} (f : GoString) (fs : List GoString) (tbl : NsTable)
    {ns : Int} (h : getNSIno env.readlink (ascii "net") (filepathSplit f).2 = .ok ns) :
    getAllNetNSLoop env (f :: fs) tbl
      = ((getAllNetNSLoop env fs (mapInsert tbl ns (filepathJoin [f, ascii "ns", ascii "net"]))).1,
          .readlink (nsLinkPath (ascii "net") (filepathSplit f).2) ::
            (getAllNetNSLoop env fs
              (mapInsert tbl ns (filepathJoin [f, ascii "ns", ascii "net"]))).2) := by
  simp [getAllNetNSLoop, h]

theorem getAllNetNSLoop_enterings (env : Env) (fs : List GoString) :
    ∀ tbl, enterings (getAllNetNSLoop env fs tbl).2 = [] := by
  induction fs with
  | nil => intro tbl; rfl
  | cons f fs ih =>
    intro tbl
    cases h : getNSIno env.readlink (ascii "net") (filepathSplit f).2 with
    | abort c => rw [getAllNetNSLoop_abort f fs tbl h]; rfl
    | err e => rw [getAllNetNSLoop_err f fs tbl h]; simpa [enterings] using ih tbl
    | ok ns => rw [getAllNetNSLoop_ok f fs tbl h]; simpa [enterings] using ih _

theorem getAllNetNS_enterings (env : Env) : enterings (getAllNetNS env).2 = [] := by
  simpa [getAllNetNS, enterings] using getAllNetNSLoop_enterings env env.procDirs []

theorem correlate_chained (env : Env) (veth : GoString) (link : Int) (t : NsTable) (w : World)
    (hw : enterings w.trace = []) :
    Chained w.ctx (enterings (correlate env veth link t w).2.trace) := by
  unfold correlate
  cases env.netnsGet with
  | some e =>
    simp [log_trace, enterings_append, enterings, hw, Chained]
  | none =>
    have hinv := outerLoop_restoreInv env (.current w.ctx) link t (env.range 0 t) 0
      (w.log .netnsGet) [Deferred.closeHandle (.current w.ctx)]
      ⟨by intro h hh; simp at hh, Or.inl rfl⟩
    simp only []
    rw [runDeferred_enterings env w.ctx _ _ hinv.1]
    apply outerLoop_chained
    unfold ChainInv
    simp [log_trace, enterings_append, enterings, hw, log_ctx]

/-- The first entry into a candidate is made from the namespace of the caller, every
later one from the namespace of the candidate entered before. -/
theorem getNetNSFromVeth_entries_chained (env : Env) (ctx0 : Ctx) (vethName : GoString) :
    (enterings (getNetNSFromVeth env ctx0 vethName).2.trace).map Prod.fst
      = (ctx0 :: (enterings (getNetNSFromVeth env ctx0 vethName).2.trace).map Prod.snd).dropLast := by
  show Chained ctx0 (enterings (getNetNSFromVeth env ctx0 vethName).2.trace)
  unfold getNetNSFromVeth
  cases getLinkNetNSID env vethName with
  | err e => simp [enterings, Chained]
  | abort c => simp [enterings, Chained]
  | ok link =>
    have hall := getAllNetNS_enterings env
    cases hres : getAllNetNS env with
    | mk r evs =>
      rw [hres] at hall
      have hpre : enterings ([Event.ipLinkShow vethName] ++ [Event.printLinkNetNSID vethName link]
          ++ evs) = [] := by
        simp [enterings_append, enterings, hall]
      cases r with
      | err e => simp [log_trace, Chained, enterings_append, enterings, hall]
      | abort c => simp [log_trace, Chained, enterings_append, enterings, hall]
      | ok t =>
        exact correlate_chained env vethName link t
          { ctx := ctx0, trace := [Event.ipLinkShow vethName] ++
              [Event.printLinkNetNSID vethName link] ++ evs } hpre


/-! ## The result of the correlation loop when every call succeeds -/

theorem getLocalNetNSID_ok {env : Env} (w : World) {p : GoString} {id : Int}
    (ho : env.osOpen p = none) (hq : env.getNetNsIdByFd w.ctx p = .ok id) :
    (getLocalNetNSID env w p).1 = .ok id := by
  simp [getLocalNetNSID, ho, hq]

theorem innerLoop_result (env : Env) (link : Int) (inner : NsTable) :
    ∀ w, (∀ d ∈ inner, env.osOpen d.2 = none ∧ ∃ id, env.getNetNsIdByFd w.ctx d.2 = .ok id) →
      (innerLoop env link inner w).1
        = (inner.find? (answers env link w.ctx)).map (fun d => Outcome.ok d.1) := by
  induction inner with
  | nil => intro w _; rfl
  | cons d rest ih =>
    intro w h
    obtain ⟨ino, p⟩ := d
    obtain ⟨ho, id, hq⟩ := h (ino, p) (List.mem_cons_self _ _)
    have hr := getLocalNetNSID_ok w ho hq
    have hc := getLocalNetNSID_ctx env w p
    unfold innerLoop
    cases hl : getLocalNetNSID env w p with
    | mk r w1 =>
      rw [hl] at hr hc
      simp only at hr hc
      subst hr
      by_cases hid : id = link
      · simp [hid, answers, hq]
      · have hrest : ∀ d ∈ rest, env.osOpen d.2 = none ∧
            ∃ id, env.getNetNsIdByFd w1.ctx d.2 = .ok id := by
          intro d hd
          rw [hc]
          exact h d (List.mem_cons_of_mem _ hd)
        simp only [hid, if_false]
        rw [ih w1 hrest, hc]
        simp [List.find?_cons, answers, hq, hid]

theorem probeHits_eq {env : Env} (link : Int) {c : Entry} {ns : Ctx}
    (ho : env.netnsGetFromPath c.2 = .ok ns) (d : Entry) :
    probeHits env link c d = answers env link ns d := by
  simp [probeHits, ho]

theorem outerLoop_result (env : Env) (orig : NsHandle) (link : Int) (t : NsTable)
    (H : Healthy env t) (outer : NsTable) :
    ∀ (i : Nat) (w : World) (ds : List Deferred), (∀ c ∈ outer, c ∈ t) →
      (outerLoop env orig link t i outer w ds).1
        = ((probeOrder env t i outer).find? (fun q => probeHits env link q.1 q.2)).map
            (fun q => Outcome.ok q.2.1) := by
  induction outer with
  | nil => intro i w ds _; rfl
  | cons c rest ih =>
    intro i w ds hsub
    obtain ⟨ino, p⟩ := c
    have hc : (ino, p) ∈ t := hsub _ (List.mem_cons_self _ _)
    have hrest : ∀ c ∈ rest, c ∈ t := fun c hc => hsub c (List.mem_cons_of_mem _ hc)
    obtain ⟨ns0, hopen⟩ := H.fromPath _ hc
    have hinner : ∀ w2 : World, w2.ctx = ns0 →
        (innerLoop env link (env.range (i + 1) t) w2).1
          = ((env.range (i + 1) t).find? (answers env link ns0)).map (fun d => Outcome.ok d.1) := by
      intro w2 hw2
      rw [← hw2]
      apply innerLoop_result
      intro d hd
      have hdt : d ∈ t := (H.range (i + 1)).mem_iff.1 hd
      rw [hw2]
      exact ⟨H.osOpen d hdt, H.nsid _ hc ns0 hopen d hdt⟩
    have hfind : ((env.range (i + 1) t).map (fun d => ((ino, p), d))).find?
        (fun q => probeHits env link q.1 q.2)
          = ((env.range (i + 1) t).find? (answers env link ns0)).map (fun d => ((ino, p), d)) := by
      have hfun : ((fun q : Entry × Entry => probeHits env link q.1 q.2) ∘
          fun d => ((ino, p), d)) = answers env link ns0 := by
        funext d
        exact probeHits_eq link hopen d
      rw [List.find?_map, hfun]
    rcases outerLoop_cons_cases env orig link t i ino p rest w ds with
      ⟨e, ho, _⟩ | ⟨ns, e, w2, ho, hs, _⟩ | ⟨ns, w2, r, w3, ho, hs, hi, heq⟩ |
      ⟨ns, w2, w3, ho, hs, hi, heq⟩
    · rw [hopen] at ho; cases ho
    · rw [hopen] at ho; cases ho
      have := (netnsSet_fail hs).1
      rw [H.set _ hc ns0] at this
      cases this
    · rw [hopen] at ho; cases ho
      have h1 := hinner w2 (netnsSet_ok hs).2
      rw [hi] at h1
      rw [heq]
      simp only [probeOrder, List.find?_append, hfind]
      cases hf : (env.range (i + 1) t).find? (answers env link ns0) with
      | none => rw [hf] at h1; cases h1
      | some d =>
        rw [hf] at h1
        simpa using h1
    · rw [hopen] at ho; cases ho
      have h1 := hinner w2 (netnsSet_ok hs).2
      rw [hi] at h1
      rw [heq, ih (i + 1) w3 _ hrest]
      simp only [probeOrder, List.find?_append, hfind]
      cases hf : (env.range (i + 1) t).find? (answers env link ns0) with
      | none => simp
      | some d => rw [hf] at h1; cases h1

theorem mem_probeOrder {env : Env} {t : NsTable} (hr : ∀ k, (env.range k t).Perm t)
    (outer : NsTable) : ∀ (i : Nat) (c d : Entry),
      (c, d) ∈ probeOrder env t i outer ↔ c ∈ outer ∧ d ∈ t := by
  induction outer with
  | nil => intro i c d; simp [probeOrder]
  | cons x rest ih =>
    intro i c d
    simp only [probeOrder, List.mem_append, List.mem_map, Prod.mk.injEq, ih, List.mem_cons]
    constructor
    · rintro (⟨a, ha, rfl, rfl⟩ | ⟨h1, h2⟩)
      · exact ⟨Or.inl rfl, (hr (i + 1)).mem_iff.1 ha⟩
      · exact ⟨Or.inr h1, h2⟩
    · rintro ⟨rfl | h1, h2⟩
      · exact Or.inl ⟨d, (hr (i + 1)).mem_iff.2 h2, rfl, rfl⟩
      · exact Or.inr ⟨h1, h2⟩

theorem probeHits_iff (env : Env) (id : Int) (c d : Entry) :
    probeHits env id c d = true ↔ Matches env id c d := by
  unfold probeHits Matches answers
  cases h1 : env.netnsGetFromPath c.2 with
  | error e => simp
  | ok ns =>
    cases h2 : env.getNetNsIdByFd ns d.2 with
    | error e => simp [h2]
    | ok r => simp [h2]

/-- With every call succeeding, `getNetNSFromVeth` returns the inode of the probed
entry of the first pair that hits, and the error of line 164 when no pair hits. -/
theorem getNetNSFromVeth_result {env : Env} (ctx0 : Ctx) {vethName : GoString} {link : Int}
    {t : NsTable} (hlink : getLinkNetNSID env vethName = .ok link)
    (htab : (getAllNetNS env).1 = .ok t) (H : Healthy env t) :
    (getNetNSFromVeth env ctx0 vethName).1
      = ((firstHit env link t).map (fun q => Outcome.ok q.2.1)).getD (.err (.notFound vethName)) := by
  unfold getNetNSFromVeth
  rw [hlink]
  cases hall : getAllNetNS env with
  | mk r evs =>
    rw [hall] at htab
    simp only at htab
    subst htab
    simp only [correlate, H.get]
    rw [outerLoop_result env _ link t H (env.range 0 t) 0 _ _
      (fun c hc => (H.range 0).mem_iff.1 hc)]
    rfl


theorem firstHit_some {env : Env} {link : Int} {t : NsTable} (hr : ∀ k, (env.range k t).Perm t)
    {c d : Entry} (h : firstHit env link t = some (c, d)) :
    c ∈ t ∧ d ∈ t ∧ Matches env link c d := by
  unfold firstHit at h
  have hm := List.mem_of_find?_eq_some h
  have hp := List.find?_some h
  rw [mem_probeOrder hr] at hm
  exact ⟨(hr 0).mem_iff.1 hm.1, hm.2, (probeHits_iff env link c d).1 hp⟩

theorem firstHit_none {env : Env} {link : Int} {t : NsTable} (hr : ∀ k, (env.range k t).Perm t)
    (h : firstHit env link t = none) : ¬ ∃ c ∈ t, ∃ d ∈ t, Matches env link c d := by
  unfold firstHit at h
  rw [List.find?_eq_none] at h
  rintro ⟨c, hc, d, hd, hm⟩
  have hmem : (c, d) ∈ probeOrder env t 0 (env.range 0 t) :=
    (mem_probeOrder hr _ 0 c d).2 ⟨(hr 0).mem_iff.2 hc, hd⟩
  exact h (c, d) hmem ((probeHits_iff env link c d).2 hm)

/-- Claim C10: when every collaborator call succeeds, `getNetNSFromVeth` returns an
inode exactly when some pair of table entries `(c, d)` is such that the identifier
of the path of `d`, queried from inside `c`, equals the link-netnsid; a returned
inode is the key of the probed entry `d` of such a pair, and it is that of the first
such pair in the order the nested loops visit the pairs; the function returns the
error `netns inode ... not found` exactly when there is no such pair. -/
theorem getNetNSFromVeth_characterised (env : Env) (ctx0 : Ctx) (vethName : GoString)
    (link : Int) (t : NsTable) (hlink : getLinkNetNSID env vethName = .ok link)
    (htab : (getAllNetNS env).1 = .ok t) (H : Healthy env t) :
    ((∃ ino, (getNetNSFromVeth env ctx0 vethName).1 = .ok ino) ↔
      ∃ c ∈ t, ∃ d ∈ t, Matches env link c d) ∧
    (∀ ino, (getNetNSFromVeth env ctx0 vethName).1 = .ok ino →
      ∃ c ∈ t, ∃ d ∈ t, d.1 = ino ∧ Matches env link c d ∧
        ∃ before after, probeOrder env t 0 (env.range 0 t) = before ++ (c, d) :: after ∧
          ∀ q ∈ before, ¬ Matches env link q.1 q.2) ∧
    ((getNetNSFromVeth env ctx0 vethName).1 = .err (.notFound vethName) ↔
      ¬ ∃ c ∈ t, ∃ d ∈ t, Matches env link c d) := by
  have hres := getNetNSFromVeth_result ctx0 hlink htab H
  cases hf : firstHit env link t with
  | none =>
    have hno := firstHit_none H.range hf
    rw [hf] at hres
    simp only [Option.map_none', Option.getD_none] at hres
    refine ⟨?_, ?_, ?_⟩
    · rw [hres]
      constructor
      · rintro ⟨ino, h⟩; cases h
      · intro h; exact absurd h hno
    · intro ino h; rw [hres] at h; cases h
    · rw [hres]; exact ⟨fun _ => hno, fun _ => rfl⟩
  | some q =>
    obtain ⟨c, d⟩ := q
    obtain ⟨hc, hd, hm⟩ := firstHit_some H.range hf
    rw [hf] at hres
    simp only [Option.map_some', Option.getD_some] at hres
    refine ⟨?_, ?_, ?_⟩
    · rw [hres]
      exact ⟨fun _ => ⟨c, hc, d, hd, hm⟩, fun _ => ⟨d.1, rfl⟩⟩
    · intro ino h
      rw [hres] at h
      cases h
      unfold firstHit at hf
      obtain ⟨_, before, after, hsplit, hbefore⟩ := List.find?_eq_some.1 hf
      refine ⟨c, hc, d, hd, rfl, hm, before, after, hsplit, ?_⟩
      intro q hq hmq
      have := hbefore q hq
      rw [(probeHits_iff env link q.1 q.2).2 hmq] at this
      cases this
    · rw [hres]
      constructor
      · intro h; cases h
      · intro h; exact absurd ⟨c, hc, d, hd, hm⟩ h

/-- Claim C2, as amended: when the entry `A` of the origin is in the table with an
entry `B` of another inode and, from inside `B`, the identifier of `A` equals the
link-netnsid (every call succeeding), `getNetNSFromVeth` returns the inode of the
probed entry of a pair (entered entry, probed entry) whose probe equals the
link-netnsid: that of the first such pair in the order the nested loops visit the
pairs. -/
theorem getNetNSFromVeth_returns_probed (env : Env) (ctx0 : Ctx) (vethName : GoString)
    (link : Int) (t : NsTable) (hlink : getLinkNetNSID env vethName = .ok link)
    (htab : (getAllNetNS env).1 = .ok t) (H : Healthy env t)
    (A B : Entry) (hA : A ∈ t) (hB : B ∈ t) (_hne : A.1 ≠ B.1) (hBA : Matches env link B A) :
    ∃ c ∈ t, ∃ d ∈ t, Matches env link c d ∧
      (getNetNSFromVeth env ctx0 vethName).1 = .ok d.1 ∧
      ∃ before after, probeOrder env t 0 (env.range 0 t) = before ++ (c, d) :: after ∧
        ∀ q ∈ before, ¬ Matches env link q.1 q.2 := by
  have hres := getNetNSFromVeth_result ctx0 hlink htab H
  cases hf : firstHit env link t with
  | none => exact absurd ⟨B, hB, A, hA, hBA⟩ (firstHit_none H.range hf)
  | some q =>
    obtain ⟨c, d⟩ := q
    obtain ⟨hc, hd, hm⟩ := firstHit_some H.range hf
    rw [hf] at hres
    simp only [Option.map_some', Option.getD_some] at hres
    unfold firstHit at hf
    obtain ⟨_, before, after, hsplit, hbefore⟩ := List.find?_eq_some.1 hf
    refine ⟨c, hc, d, hd, hm, hres, before, after, hsplit, ?_⟩
    intro q hq hmq
    have := hbefore q hq
    rw [(probeHits_iff env link q.1 q.2).2 hmq] at this
    cases this

/-- Claim C5, as amended: when the table has exactly one entry and every call
succeeds, `getNetNSFromVeth` fails with the error `netns inode ... not found` if the
identifier the namespace gives its own path differs from the link-netnsid, and
returns the inode of the entry if the two are equal. -/
theorem getNetNSFromVeth_single_entry (env : Env) (ctx0 : Ctx) (vethName : GoString)
    (link : Int) (e : Entry) (hlink : getLinkNetNSID env vethName = .ok link)
    (htab : (getAllNetNS env).1 = .ok [e]) (H : Healthy env [e])
    (ns : Ctx) (id : Int) (hopen : env.netnsGetFromPath e.2 = .ok ns)
    (hid : env.getNetNsIdByFd ns e.2 = .ok id) :
    (id ≠ link → (getNetNSFromVeth env ctx0 vethName).1 = .err (.notFound vethName)) ∧
    (id = link → (getNetNSFromVeth env ctx0 vethName).1 = .ok e.1) := by
  have hres := getNetNSFromVeth_result ctx0 hlink htab H
  have hmatch : ∀ c ∈ [e], ∀ d ∈ [e], Matches env link c d → id = link := by
    intro c hc d hd hm
    rw [List.mem_singleton] at hc hd
    subst hc; subst hd
    obtain ⟨ns2, h1, h2⟩ := hm
    rw [hopen] at h1
    cases h1
    rw [hid] at h2
    exact Except.ok.inj h2
  cases hf : firstHit env link [e] with
  | none =>
    rw [hf] at hres
    refine ⟨fun _ => hres, ?_⟩
    intro heq
    exact absurd ⟨e, List.mem_singleton_self e, e, List.mem_singleton_self e, ns, hopen, heq ▸ hid⟩
      (firstHit_none H.range hf)
  | some q =>
    obtain ⟨c, d⟩ := q
    obtain ⟨hc, hd, hm⟩ := firstHit_some H.range hf
    rw [hf] at hres
    simp only [Option.map_some', Option.getD_some] at hres
    have hd2 : d = e := List.mem_singleton.1 hd
    subst hd2
    exact ⟨fun hne => absurd (hmatch c hc d hd hm) hne, fun _ => hres⟩

/-! ## The simulated hosts are healthy -/

theorem Host.healthy (h : Host) (t : NsTable) (hfind : ∀ c ∈ t, (h.find c.2).isSome = true)
    (horder : ∀ k, (h.order k t).Perm t) : Healthy h.env t where
  get := rfl
  fromPath := by
    intro c hc
    have := hfind c hc
    cases hf : h.find c.2 with
    | none => rw [hf] at this; cases this
    | some p => exact ⟨p.ns, by simp [Host.env, hf]⟩
  set := fun _ _ _ => rfl
  osOpen := by
    intro d hd
    have := hfind d hd
    cases hf : h.find d.2 with
    | none => rw [hf] at this; cases this
    | some p => simp [Host.env, hf]
  nsid := by
    intro c _ ns _ d hd
    have := hfind d hd
    cases hf : h.find d.2 with
    | none => rw [hf] at this; cases this
    | some p => exact ⟨h.nsid ns p.ns, by simp [Host.env, hf]⟩
  range := horder

theorem secondFirst_perm (t : NsTable) (k : Nat) : (secondFirst k t).Perm t := by
  unfold secondFirst
  by_cases hk : k = 0
  · simp only [hk, if_true]; exact List.rotate_perm _ _
  · simp only [hk, if_false]; exact List.Perm.refl _

theorem scenarioHost_healthy (ab : Int) (order : Nat → NsTable → NsTable)
    (horder : ∀ k, (order k threeTable).Perm threeTable) :
    Healthy (scenarioHost ab order).env threeTable :=
  have hfind : ∀ c ∈ threeTable, ((scenarioHost 0 listOrder).find c.2).isSome = true := by decide
  Host.healthy (scenarioHost ab order) threeTable hfind horder

theorem peerHost_healthy (order : Nat → NsTable → NsTable)
    (horder : ∀ k, (order k threeTable).Perm threeTable) :
    Healthy (peerHost order).env threeTable :=
  have hfind : ∀ c ∈ threeTable, ((peerHost listOrder).find c.2).isSome = true := by decide
  Host.healthy (peerHost order) threeTable hfind horder

theorem loneHost_healthy : Healthy loneHost.env [(100, procNsPath 1)] :=
  Host.healthy loneHost _ (by decide) (fun _ => List.Perm.refl _)

/-- Witness of C10: the host of three namespaces, the outer loop starting at the
second entry. -/
theorem getNetNSFromVeth_characterised_witness :
    getLinkNetNSID (peerHost secondFirst).env veth0 = .ok 0 ∧
    (getAllNetNS (peerHost secondFirst).env).1 = .ok threeTable ∧
    Healthy (peerHost secondFirst).env threeTable ∧
    ((∃ ino, (getNetNSFromVeth (peerHost secondFirst).env 100 veth0).1 = .ok ino) ↔
      ∃ c ∈ threeTable, ∃ d ∈ threeTable, Matches (peerHost secondFirst).env 0 c d) :=
  ⟨by decide, by decide, peerHost_healthy secondFirst (secondFirst_perm threeTable),
    (getNetNSFromVeth_characterised (peerHost secondFirst).env 100 veth0 0 threeTable
      (by decide) (by decide) (peerHost_healthy secondFirst (secondFirst_perm threeTable))).1⟩

/-- Witness of the amended C2: the scenario of the specification, the outer loop
starting at the entry of `B`. -/
theorem getNetNSFromVeth_returns_probed_witness :
    getLinkNetNSID (scenarioHost 3 secondFirst).env veth0 = .ok 3 ∧
    (getAllNetNS (scenarioHost 3 secondFirst).env).1 = .ok threeTable ∧
    Healthy (scenarioHost 3 secondFirst).env threeTable ∧
    Matches (scenarioHost 3 secondFirst).env 3 (200, procNsPath 2) (100, procNsPath 1) ∧
    ∃ c ∈ threeTable, ∃ d ∈ threeTable, Matches (scenarioHost 3 secondFirst).env 3 c d ∧
      (getNetNSFromVeth (scenarioHost 3 secondFirst).env 100 veth0).1 = .ok d.1 ∧
      ∃ before after,
        probeOrder (scenarioHost 3 secondFirst).env threeTable 0
            ((scenarioHost 3 secondFirst).env.range 0 threeTable)
          = before ++ (c, d) :: after ∧
        ∀ q ∈ before, ¬ Matches (scenarioHost 3 secondFirst).env 3 q.1 q.2 :=
  have hH := scenarioHost_healthy 3 secondFirst (secondFirst_perm threeTable)
  have hBA : Matches (scenarioHost 3 secondFirst).env 3 (200, procNsPath 2) (100, procNsPath 1) :=
    (probeHits_iff _ _ _ _).1 (by decide)
  ⟨by decide, by decide, hH, hBA,
    getNetNSFromVeth_returns_probed (scenarioHost 3 secondFirst).env 100 veth0 3 threeTable
      (by decide) (by decide) hH (100, procNsPath 1) (200, procNsPath 2)
      (by decide) (by decide) (by decide) hBA⟩

/-- Witness of the amended C5: the host with one namespace, which is 0 to itself. -/
theorem getNetNSFromVeth_single_entry_witness :
    Healthy loneHost.env [(100, procNsPath 1)] ∧
    (getNetNSFromVeth loneHost.env 100 veth0).1 = .ok 100 :=
  ⟨loneHost_healthy,
    (getNetNSFromVeth_single_entry loneHost.env 100 veth0 0 (100, procNsPath 1)
      (by decide) (by decide) loneHost_healthy 100 0 (by decide) (by decide)).2 rfl⟩


/-! ## The enumeration -/

theorem mem_keys_mapInsert (t : NsTable) (k : Int) (v : GoString) (k2 : Int) :
    k2 ∈ (mapInsert t k v).map Prod.fst ↔ k2 = k ∨ k2 ∈ t.map Prod.fst := by
  unfold mapInsert
  by_cases h : t.any (fun e => decide (e.1 = k)) = true
  · rw [if_pos h]
    have hk : k ∈ t.map Prod.fst := by
      rw [List.any_eq_true] at h
      obtain ⟨e, he, hek⟩ := h
      exact List.mem_map.2 ⟨e, he, by simpa using hek⟩
    have hmap : (t.map (fun e => if e.1 = k then (k, v) else e)).map Prod.fst = t.map Prod.fst := by
      rw [List.map_map]
      apply List.map_congr_left
      intro e _
      by_cases hek : e.1 = k <;> simp [hek]
    rw [hmap]
    constructor
    · exact Or.inr
    · rintro (rfl | h2)
      · exact hk
      · exact h2
  · rw [if_neg h]
    simp only [List.map_append, List.map_cons, List.map_nil, List.mem_append, List.mem_singleton]
    tauto

theorem nodup_keys_mapInsert (t : NsTable) (k : Int) (v : GoString)
    (hn : (t.map Prod.fst).Nodup) : ((mapInsert t k v).map Prod.fst).Nodup := by
  unfold mapInsert
  by_cases h : t.any (fun e => decide (e.1 = k)) = true
  · rw [if_pos h]
    have hmap : (t.map (fun e => if e.1 = k then (k, v) else e)).map Prod.fst = t.map Prod.fst := by
      rw [List.map_map]
      apply List.map_congr_left
      intro e _
      by_cases hek : e.1 = k <;> simp [hek]
    rw [hmap]; exact hn
  · rw [if_neg h]
    have hk : k ∉ t.map Prod.fst := by
      intro hk
      apply h
      rw [List.any_eq_true]
      obtain ⟨e, he, hek⟩ := List.mem_map.1 hk
      exact ⟨e, he, by simpa using hek⟩
    simp only [List.map_append, List.map_cons, List.map_nil]
    rw [List.nodup_append]
    refine ⟨hn, List.nodup_singleton _, ?_⟩
    intro a ha hb
    rw [List.mem_singleton] at hb
    subst hb
    exact hk ha

theorem getAllNetNSLoop_cons (env : Env) (f : GoString) (fs : List GoString) (tbl : NsTable) :
    (∃ c, resolve env f = .abort c ∧
      getAllNetNSLoop env (f :: fs) tbl
        = (.abort c, [.readlink (nsLinkPath (ascii "net") (filepathSplit f).2)])) ∨
    (∃ e, resolve env f = .err e ∧
      getAllNetNSLoop env (f :: fs) tbl
        = ((getAllNetNSLoop env fs tbl).1,
            .readlink (nsLinkPath (ascii "net") (filepathSplit f).2) ::
              .warn (filepathSplit f).2 e :: (getAllNetNSLoop env fs tbl).2)) ∨
    (∃ ns, resolve env f = .ok ns ∧
      getAllNetNSLoop env (f :: fs) tbl
        = ((getAllNetNSLoop env fs
              (mapInsert tbl ns (filepathJoin [f, ascii "ns", ascii "net"]))).1,
            .readlink (nsLinkPath (ascii "net") (filepathSplit f).2) ::
              (getAllNetNSLoop env fs
                (mapInsert tbl ns (filepathJoin [f, ascii "ns", ascii "net"]))).2)) := by
  cases h : resolve env f with
  | abort c => exact Or.inl ⟨c, rfl, getAllNetNSLoop_abort f fs tbl h⟩
  | err e => exact Or.inr (Or.inl ⟨e, rfl, getAllNetNSLoop_err f fs tbl h⟩)
  | ok ns => exact Or.inr (Or.inr ⟨ns, rfl, getAllNetNSLoop_ok f fs tbl h⟩)

/-- The enumeration loop never returns an error value. -/
theorem getAllNetNSLoop_ne_err (env : Env) (fs : List GoString) :
    ∀ tbl e, (getAllNetNSLoop env fs tbl).1 ≠ .err e := by
  induction fs with
  | nil => intro tbl e h; cases h
  | cons f fs ih =>
    intro tbl e
    rcases getAllNetNSLoop_cons env f fs tbl with ⟨c, _, heq⟩ | ⟨e2, _, heq⟩ | ⟨ns, _, heq⟩
    · rw [heq]; intro h; cases h
    · rw [heq]; exact ih tbl e
    · rw [heq]; exact ih _ e

/-- The enumeration loop aborts exactly when `getNSIno` aborts on some process. -/
theorem getAllNetNSLoop_abort_iff (env : Env) (fs : List GoString) :
    ∀ tbl, (getAllNetNSLoop env fs tbl).1.isAbort = true ↔
      ∃ f ∈ fs, (resolve env f).isAbort = true := by
  induction fs with
  | nil => intro tbl; simp [getAllNetNSLoop, Outcome.isAbort]
  | cons f fs ih =>
    intro tbl
    rcases getAllNetNSLoop_cons env f fs tbl with ⟨c, hr, heq⟩ | ⟨e2, hr, heq⟩ | ⟨ns, hr, heq⟩
    · rw [heq]
      simp only [Outcome.isAbort, List.mem_cons, true_iff]
      exact ⟨f, Or.inl rfl, by simp [hr, Outcome.isAbort]⟩
    · rw [heq]
      simp only [ih tbl, List.mem_cons]
      constructor
      · rintro ⟨g, hg, h⟩; exact ⟨g, Or.inr hg, h⟩
      · rintro ⟨g, rfl | hg, h⟩
        · rw [hr] at h; cases h
        · exact ⟨g, hg, h⟩
    · rw [heq]
      simp only [ih _, List.mem_cons]
      constructor
      · rintro ⟨g, hg, h⟩; exact ⟨g, Or.inr hg, h⟩
      · rintro ⟨g, rfl | hg, h⟩
        · rw [hr] at h; cases h
        · exact ⟨g, hg, h⟩

/-- When the enumeration loop returns a table: its keys are those it started with and
the inodes of the processes `getNSIno` resolved, they are distinct if they were, and
there is one warning for every process `getNSIno` gave an error for. -/
theorem getAllNetNSLoop_ok_spec (env : Env) (fs : List GoString) :
    ∀ tbl t, (getAllNetNSLoop env fs tbl).1 = .ok t →
      (∀ k, k ∈ t.map Prod.fst ↔ k ∈ tbl.map Prod.fst ∨ ∃ f ∈ fs, resolve env f = .ok k) ∧
      ((tbl.map Prod.fst).Nodup → (t.map Prod.fst).Nodup) ∧
      (warnings (getAllNetNSLoop env fs tbl).2).length
        = (fs.filter (fun f => (resolve env f).isErr)).length := by
  induction fs with
  | nil =>
    intro tbl t h
    simp only [getAllNetNSLoop, Outcome.ok.injEq] at h
    subst h
    simp [getAllNetNSLoop, warnings]
  | cons f fs ih =>
    intro tbl t h
    rcases getAllNetNSLoop_cons env f fs tbl with ⟨c, hr, heq⟩ | ⟨e2, hr, heq⟩ | ⟨ns, hr, heq⟩
    · rw [heq] at h; cases h
    · rw [heq] at h ⊢
      obtain ⟨h1, h2, h3⟩ := ih tbl t h
      refine ⟨?_, h2, ?_⟩
      · intro k
        rw [h1 k]
        simp only [List.mem_cons]
        constructor
        · rintro (hk | ⟨g, hg, hk⟩)
          · exact Or.inl hk
          · exact Or.inr ⟨g, Or.inr hg, hk⟩
        · rintro (hk | ⟨g, rfl | hg, hk⟩)
          · exact Or.inl hk
          · rw [hr] at hk; cases hk
          · exact Or.inr ⟨g, hg, hk⟩
      · simp only [warnings] at h3 ⊢
        simp [List.filter_cons, hr, Outcome.isErr, h3]
    · rw [heq] at h ⊢
      obtain ⟨h1, h2, h3⟩ := ih _ t h
      refine ⟨?_, fun hn => h2 (nodup_keys_mapInsert _ _ _ hn), ?_⟩
      · intro k
        rw [h1 k, mem_keys_mapInsert]
        simp only [List.mem_cons]
        constructor
        · rintro ((rfl | hk) | ⟨g, hg, hk⟩)
          · exact Or.inr ⟨f, Or.inl rfl, hr⟩
          · exact Or.inl hk
          · exact Or.inr ⟨g, Or.inr hg, hk⟩
        · rintro (hk | ⟨g, rfl | hg, hk⟩)
          · exact Or.inl (Or.inr hk)
          · rw [hr] at hk; cases hk; exact Or.inl (Or.inl rfl)
          · exact Or.inr ⟨g, hg, hk⟩
      · simp only [warnings] at h3 ⊢
        simp [List.filter_cons, hr, Outcome.isErr, h3]

/-- The behaviour of `getAllNetNS` claim C7 is about: it never returns an error value;
it aborts exactly when `getNSIno` aborts on some process; and when it returns a
table, the keys are exactly the inodes of the processes `getNSIno` resolved, they
are distinct, and there is exactly one warning for every other process. -/
theorem getAllNetNS_spec (env : Env) :
    (∀ e, (getAllNetNS env).1 ≠ .err e) ∧
    ((getAllNetNS env).1.isAbort = true ↔ ∃ f ∈ env.procDirs, (resolve env f).isAbort = true) ∧
    (∀ t, (getAllNetNS env).1 = .ok t →
      (∀ k, k ∈ t.map Prod.fst ↔ ∃ f ∈ env.procDirs, resolve env f = .ok k) ∧
      (t.map Prod.fst).Nodup ∧
      (warnings (getAllNetNS env).2).length
        = (env.procDirs.filter (fun f => (resolve env f).isErr)).length) := by
  refine ⟨fun e => getAllNetNSLoop_ne_err env env.procDirs [] e,
    getAllNetNSLoop_abort_iff env env.procDirs [], ?_⟩
  intro t ht
  obtain ⟨h1, h2, h3⟩ := getAllNetNSLoop_ok_spec env env.procDirs [] t ht
  refine ⟨?_, h2 List.nodup_nil, ?_⟩
  · intro k
    rw [h1 k]
    simp
  · simpa [getAllNetNS, warnings] using h3

theorem parseNSLink_of_none {i : GoString} (h : (stringsSplit colon i)[1]? = none) :
    parseNSLink i = .abort (.indexOutOfRange 1 (stringsSplit colon i).length) := by
  simp [parseNSLink, h]

theorem parseNSLink_of_short {i s : GoString} (h : (stringsSplit colon i)[1]? = some s)
    (hs : s.length < 2) : parseNSLink i = .abort (.sliceBounds 1 ((s.length : Int) - 1)) := by
  simp [parseNSLink, h, hs]

theorem parseNSLink_of_long {i s : GoString} (h : (stringsSplit colon i)[1]? = some s)
    (hs : ¬ s.length < 2) :
    parseNSLink i = match strconvAtoi ((s.drop 1).take (s.length - 2)) with
      | none => .err (.atoi ((s.drop 1).take (s.length - 2)))
      | some ino => .ok ino := by
  simp [parseNSLink, h, hs]

/-- The link texts on which `getNSIno` aborts: those with no `':'`, and those whose
second piece is shorter than 2 bytes. -/
theorem parseNSLink_isAbort_iff (i : GoString) :
    (parseNSLink i).isAbort = true ↔
      (stringsSplit colon i).length < 2 ∨
        ∃ s, (stringsSplit colon i)[1]? = some s ∧ s.length < 2 := by
  cases h : (stringsSplit colon i)[1]? with
  | none =>
    rw [parseNSLink_of_none h]
    simp only [Outcome.isAbort, true_iff]
    left
    rw [List.getElem?_eq_none_iff] at h
    omega
  | some s =>
    have hlen : ¬ (stringsSplit colon i).length < 2 := by
      intro hl
      have : (stringsSplit colon i)[1]? = none := List.getElem?_eq_none_iff.2 (by omega)
      rw [this] at h; cases h
    by_cases hs : s.length < 2
    · rw [parseNSLink_of_short h hs]
      simp only [Outcome.isAbort, true_iff]
      exact Or.inr ⟨s, rfl, hs⟩
    · rw [parseNSLink_of_long h hs]
      have hno : ¬ ((stringsSplit colon i).length < 2 ∨ ∃ s2, some s = some s2 ∧ s2.length < 2) := by
        rintro (h1 | ⟨s2, h2, h3⟩)
        · exact hlen h1
        · cases h2; exact hs h3
      cases strconvAtoi (List.take (s.length - 2) (List.drop 1 s)) with
      | none => simpa [Outcome.isAbort] using hno
      | some v => simpa [Outcome.isAbort] using hno


/-! ## When the loop finds the peer -/

/-- When the identifier the interface records is unambiguous over the table (every
pair of entries that hits probes the entry `P`), `getNetNSFromVeth` returns the
inode of `P`, in whatever order the maps are visited. -/
theorem getNetNSFromVeth_unambiguous {env : Env} (ctx0 : Ctx) {vethName : GoString} {link : Int}
    {t : NsTable} (hlink : getLinkNetNSID env vethName = .ok link)
    (htab : (getAllNetNS env).1 = .ok t) (H : Healthy env t)
    {O P : Entry} (hO : O ∈ t) (hP : P ∈ t) (hOP : Matches env link O P)
    (honly : ∀ c ∈ t, ∀ d ∈ t, Matches env link c d → d = P) :
    (getNetNSFromVeth env ctx0 vethName).1 = .ok P.1 := by
  have hres := getNetNSFromVeth_result ctx0 hlink htab H
  cases hf : firstHit env link t with
  | none => exact absurd ⟨O, hO, P, hP, hOP⟩ (firstHit_none H.range hf)
  | some q =>
    obtain ⟨c, d⟩ := q
    obtain ⟨hc, hd, hm⟩ := firstHit_some H.range hf
    rw [hf] at hres
    simp only [Option.map_some', Option.getD_some] at hres
    rw [hres, honly c hc d hd hm]


/-! ## The restoring calls come last -/

theorem setCalls_append (a b : List Event) : setCalls (a ++ b) = setCalls a ++ setCalls b := by
  simp [setCalls]

theorem getLocalNetNSID_setCalls (env : Env) (w : World) (p : GoString) :
    setCalls (getLocalNetNSID env w p).2.trace = setCalls w.trace := by
  unfold getLocalNetNSID
  cases env.osOpen p with
  | some e => simp [log_trace, setCalls]
  | none => cases env.getNetNsIdByFd w.ctx p <;> simp [log_trace, setCalls]

theorem innerLoop_setCalls (env : Env) (link : Int) (inner : NsTable) :
    ∀ w, setCalls (innerLoop env link inner w).2.trace = setCalls w.trace := by
  induction inner with
  | nil => intro w; rfl
  | cons d rest ih =>
    intro w
    obtain ⟨ino, p⟩ := d
    have he := getLocalNetNSID_setCalls env w p
    unfold innerLoop
    cases h : getLocalNetNSID env w p with
    | mk r w1 =>
      rw [h] at he
      cases r with
      | err e => exact he
      | abort c => exact he
      | ok id =>
        by_cases hid : id = link
        · simpa [hid] using he
        · simp only [hid, if_false]
          rw [ih w1]; exact he

theorem netnsSet_setCalls (env : Env) (w : World) (h : NsHandle) :
    ∃ ok, setCalls (netnsSet env w h).2.trace = setCalls w.trace ++ [.netnsSet w.ctx h ok] := by
  obtain ⟨ok, htr⟩ := netnsSet_trace env w h
  exact ⟨ok, by rw [htr, setCalls_append]; rfl⟩

/-- The calls of `netns.Set` the outer loop makes all enter a candidate. -/
theorem outerLoop_setCalls (env : Env) (orig : NsHandle) (link : Int) (t : NsTable)
    (outer : NsTable) : ∀ (i : Nat) (w : World) (ds : List Deferred),
      ∃ a, setCalls (outerLoop env orig link t i outer w ds).2.1.trace = setCalls w.trace ++ a ∧
        ∀ e ∈ a, e.isEntering = true := by
  induction outer with
  | nil => intro i w ds; exact ⟨[], by simp [outerLoop], by simp⟩
  | cons c rest ih =>
    intro i w ds
    obtain ⟨ino, p⟩ := c
    have hlog : setCalls (w.log (.netnsGetFromPath p)).trace = setCalls w.trace := by
      simp [log_trace, setCalls]
    have hset : ∀ ns, ∃ ok, setCalls
        (netnsSet env (w.log (.netnsGetFromPath p)) (.fromPath p ns)).2.trace
          = setCalls w.trace ++ [.netnsSet w.ctx (.fromPath p ns) ok] := by
      intro ns
      obtain ⟨ok, h⟩ := netnsSet_setCalls env (w.log (.netnsGetFromPath p)) (.fromPath p ns)
      exact ⟨ok, by rw [h, hlog]; rfl⟩
    rcases outerLoop_cons_cases env orig link t i ino p rest w ds with
      ⟨e, _, heq⟩ | ⟨ns, e, w2, _, hs, heq⟩ | ⟨ns, w2, r, w3, _, hs, hi, heq⟩ |
      ⟨ns, w2, w3, _, hs, hi, heq⟩
    · rw [heq]; exact ⟨[], by simp [hlog], by simp⟩
    · rw [heq]
      obtain ⟨ok, h⟩ := hset ns
      rw [hs] at h
      exact ⟨_, h, by simp [Event.isEntering]⟩
    · rw [heq]
      obtain ⟨ok, h⟩ := hset ns
      rw [hs] at h
      have hin := innerLoop_setCalls env link (env.range (i + 1) t) w2
      rw [hi] at hin
      exact ⟨_, hin.trans h, by simp [Event.isEntering]⟩
    · rw [heq]
      obtain ⟨ok, h⟩ := hset ns
      rw [hs] at h
      have hin := innerLoop_setCalls env link (env.range (i + 1) t) w2
      rw [hi] at hin
      obtain ⟨a, ha, hall⟩ := ih (i + 1) w3
        (.netnsSet orig :: .closeHandle (.fromPath p ns) :: ds)
      refine ⟨.netnsSet w.ctx (.fromPath p ns) ok :: a, ?_, ?_⟩
      · rw [ha, hin.trans h]; simp
      · intro e he
        rcases List.mem_cons.1 he with rfl | he
        · rfl
        · exact hall e he

/-- The calls of `netns.Set` the deferred calls make are all on `origNS`. -/
theorem runDeferred_setCalls (env : Env) (c : Ctx) (ds : List Deferred) :
    ∀ w, (∀ h, Deferred.netnsSet h ∈ ds → h = .current c) →
      ∃ b, setCalls (runDeferred env ds w).trace = setCalls w.trace ++ b ∧
        ∀ e ∈ b, e.isRestoring c = true := by
  induction ds with
  | nil => intro w _; exact ⟨[], by simp [runDeferred], by simp⟩
  | cons d ds ih =>
    intro w h
    have hrest : ∀ y, Deferred.netnsSet y ∈ ds → y = .current c :=
      fun y hy => h y (List.mem_cons_of_mem _ hy)
    cases d with
    | closeHandle x =>
      unfold runDeferred
      obtain ⟨b, hb, hall⟩ := ih (w.log (.closeHandle x)) hrest
      exact ⟨b, by rw [hb]; simp [log_trace, setCalls], hall⟩
    | netnsSet x =>
      have hx : x = .current c := h x (List.mem_cons_self _ _)
      subst hx
      unfold runDeferred
      obtain ⟨b, hb, hall⟩ := ih (netnsSet env w (.current c)).2 hrest
      obtain ⟨ok, hs⟩ := netnsSet_setCalls env w (.current c)
      refine ⟨.netnsSet w.ctx (.current c) ok :: b, ?_, ?_⟩
      · rw [hb, hs]; simp
      · intro e he
        rcases List.mem_cons.1 he with rfl | he
        · simp [Event.isRestoring]
        · exact hall e he

theorem getAllNetNSLoop_setCalls (env : Env) (fs : List GoString) :
    ∀ tbl, setCalls (getAllNetNSLoop env fs tbl).2 = [] := by
  induction fs with
  | nil => intro tbl; rfl
  | cons f fs ih =>
    intro tbl
    cases h : getNSIno env.readlink (ascii "net") (filepathSplit f).2 with
    | abort c => rw [getAllNetNSLoop_abort f fs tbl h]; rfl
    | err e => rw [getAllNetNSLoop_err f fs tbl h]; simpa [setCalls] using ih tbl
    | ok ns => rw [getAllNetNSLoop_ok f fs tbl h]; simpa [setCalls] using ih _

theorem correlate_setCalls (env : Env) (veth : GoString) (link : Int) (t : NsTable) (w : World)
    (hw : setCalls w.trace = []) :
    ∃ a b, setCalls (correlate env veth link t w).2.trace = a ++ b ∧
      (∀ e ∈ a, e.isEntering = true) ∧ (∀ e ∈ b, e.isRestoring w.ctx = true) := by
  have hg : setCalls (w.log .netnsGet).trace = [] := by
    rw [log_trace, setCalls_append, hw]; rfl
  unfold correlate
  cases env.netnsGet with
  | some e => exact ⟨[], [], hg, by simp, by simp⟩
  | none =>
    have hinv := outerLoop_restoreInv env (.current w.ctx) link t (env.range 0 t) 0
      (w.log .netnsGet) [Deferred.closeHandle (.current w.ctx)]
      ⟨by intro h hh; simp at hh, Or.inl rfl⟩
    obtain ⟨a, ha, halla⟩ := outerLoop_setCalls env (.current w.ctx) link t (env.range 0 t) 0
      (w.log .netnsGet) [Deferred.closeHandle (.current w.ctx)]
    obtain ⟨b, hb, hallb⟩ := runDeferred_setCalls env w.ctx _
      (outerLoop env (.current w.ctx) link t 0 (env.range 0 t) (w.log .netnsGet)
        [Deferred.closeHandle (.current w.ctx)]).2.1 hinv.1
    refine ⟨a, b, ?_, halla, hallb⟩
    simp only []
    rw [hb, ha, hg]
    rfl

/-- The calls `netns.Set(origNS)` all come after the last call `netns.Set(nsHandle)`. -/
theorem getNetNSFromVeth_setCalls_split (env : Env) (ctx0 : Ctx) (vethName : GoString) :
    ∃ a b, setCalls (getNetNSFromVeth env ctx0 vethName).2.trace = a ++ b ∧
      (∀ e ∈ a, e.isEntering = true) ∧ (∀ e ∈ b, e.isRestoring ctx0 = true) := by
  unfold getNetNSFromVeth
  cases getLinkNetNSID env vethName with
  | err e => exact ⟨[], [], by simp [setCalls], by simp, by simp⟩
  | abort c => exact ⟨[], [], by simp [setCalls], by simp, by simp⟩
  | ok link =>
    have hall : setCalls (getAllNetNS env).2 = [] := by
      simpa [getAllNetNS, setCalls] using getAllNetNSLoop_setCalls env env.procDirs []
    cases hres : getAllNetNS env with
    | mk r evs =>
      rw [hres] at hall
      have hpre : setCalls ([Event.ipLinkShow vethName] ++ [Event.printLinkNetNSID vethName link]
          ++ evs) = [] := by
        simpa [setCalls_append, setCalls] using hall
      cases r with
      | err e => exact ⟨[], [], by simpa [log_trace] using hpre, by simp, by simp⟩
      | abort c => exact ⟨[], [], by simpa [log_trace] using hpre, by simp, by simp⟩
      | ok t =>
        exact correlate_setCalls env vethName link t
          { ctx := ctx0, trace := [Event.ipLinkShow vethName] ++
              [Event.printLinkNetNSID vethName link] ++ evs } hpre

/-- Claim C4, as amended: in every run of `getNetNSFromVeth` the first iteration of
the outer loop starts (the thread calls `netns.Set(nsHandle)`) in the original
namespace, and every later iteration starts in the namespace of the candidate of
the iteration before it; the calls `netns.Set(origNS)` all come after the last
call `netns.Set(nsHandle)`, none between two candidates. -/
theorem getNetNSFromVeth_iterations_chained (env : Env) (ctx0 : Ctx) (vethName : GoString) :
    (enterings (getNetNSFromVeth env ctx0 vethName).2.trace).map Prod.fst
      = (ctx0 :: (enterings (getNetNSFromVeth env ctx0 vethName).2.trace).map Prod.snd).dropLast ∧
    ∃ a b, setCalls (getNetNSFromVeth env ctx0 vethName).2.trace = a ++ b ∧
      (∀ e ∈ a, e.isEntering = true) ∧ (∀ e ∈ b, e.isRestoring ctx0 = true) :=
  ⟨getNetNSFromVeth_entries_chained env ctx0 vethName,
    getNetNSFromVeth_setCalls_split env ctx0 vethName⟩


/-! ## The thread returns unless a restoring call fails -/

theorem runDeferred_trace_mono (env : Env) (ds : List Deferred) :
    ∀ (w : World) (ev : Event), ev ∈ w.trace → ev ∈ (runDeferred env ds w).trace := by
  induction ds with
  | nil => intro w ev h; exact h
  | cons d ds ih =>
    intro w ev h
    cases d with
    | closeHandle x =>
      unfold runDeferred
      exact ih _ ev (by rw [log_trace]; exact List.mem_append_left _ h)
    | netnsSet x =>
      unfold runDeferred
      obtain ⟨ok, htr⟩ := netnsSet_trace env w x
      exact ih _ ev (by rw [htr]; exact List.mem_append_left _ h)

/-- After the deferred calls the thread is in the namespace of `orig`, or one of the
calls `netns.Set(orig)` failed. -/
theorem runDeferred_ctx_or_failed (env : Env) (orig : NsHandle) (ds : List Deferred) :
    ∀ w, RestoreInv orig w ds →
      (runDeferred env ds w).ctx = orig.ns ∨
        ∃ c, Event.netnsSet c orig false ∈ (runDeferred env ds w).trace := by
  induction ds with
  | nil =>
    intro w h
    rcases h.2 with h2 | h2
    · exact Or.inl h2
    · cases h2
  | cons d ds ih =>
    intro w h
    have hrest : ∀ y, Deferred.netnsSet y ∈ ds → y = orig :=
      fun y hy => h.1 y (List.mem_cons_of_mem _ hy)
    cases d with
    | closeHandle x =>
      unfold runDeferred
      apply ih
      refine ⟨hrest, ?_⟩
      rcases h.2 with h2 | h2
      · exact Or.inl h2
      · simp only [List.mem_cons] at h2
        rcases h2 with h2 | h2
        · cases h2
        · exact Or.inr h2
    | netnsSet x =>
      have hx : x = orig := h.1 x (List.mem_cons_self _ _)
      subst hx
      unfold runDeferred
      cases hset : env.netnsSet x with
      | none =>
        apply ih
        exact ⟨hrest, Or.inl (by simp [netnsSet, hset])⟩
      | some e =>
        right
        refine ⟨w.ctx, runDeferred_trace_mono env ds _ _ ?_⟩
        simp [netnsSet, hset, log_trace]

theorem correlate_ctx_or_failed (env : Env) (veth : GoString) (link : Int) (t : NsTable)
    (w : World) :
    (correlate env veth link t w).2.ctx = w.ctx ∨
      ∃ c, Event.netnsSet c (.current w.ctx) false ∈ (correlate env veth link t w).2.trace := by
  unfold correlate
  cases env.netnsGet with
  | some e => exact Or.inl rfl
  | none =>
    exact runDeferred_ctx_or_failed env (.current w.ctx) _ _
      (outerLoop_restoreInv env (.current w.ctx) link t _ 0 _ _
        ⟨by intro h hh; simp at hh, Or.inl rfl⟩)

/-- Once `getNetNSFromVeth` has returned, the thread is in the namespace it was in
when the function was called, or one of the calls `netns.Set(origNS)` failed. -/
theorem getNetNSFromVeth_ctx_or_failed (env : Env) (ctx0 : Ctx) (vethName : GoString) :
    (getNetNSFromVeth env ctx0 vethName).2.ctx = ctx0 ∨
      ∃ c, Event.netnsSet c (.current ctx0) false ∈ (getNetNSFromVeth env ctx0 vethName).2.trace := by
  unfold getNetNSFromVeth
  cases getLinkNetNSID env vethName with
  | err e => exact Or.inl rfl
  | abort c => exact Or.inl rfl
  | ok link =>
    cases hall : getAllNetNS env with
    | mk r evs =>
      cases r with
      | err e => exact Or.inl rfl
      | abort c => exact Or.inl rfl
      | ok t => exact correlate_ctx_or_failed env vethName link t _

/-- Claim C3, as amended: whatever `getNetNSFromVeth` returns (an inode, an error of
any collaborator at any point of the loops, or an abort), if none of the calls
`netns.Set(origNS)` it makes fails, the thread is, when the function has returned,
in the namespace it was in when the function was called. -/
theorem getNetNSFromVeth_restores_context (env : Env) (ctx0 : Ctx) (vethName : GoString)
    (hrestore : ∀ ev ∈ (getNetNSFromVeth env ctx0 vethName).2.trace,
      ev.isFailedRestore ctx0 = false) :
    (getNetNSFromVeth env ctx0 vethName).2.ctx = ctx0 := by
  rcases getNetNSFromVeth_ctx_or_failed env ctx0 vethName with h | ⟨c, hc⟩
  · exact h
  · have := hrestore _ hc
    simp [Event.isFailedRestore] at this

/-- Witness of the amended C3: on the host with a netlink failure injected in the
middle of the loop the function returns that error, no restoring call fails, and
the thread is back in namespace 100. -/
theorem getNetNSFromVeth_restores_context_witness :
    (∀ ev ∈ (getNetNSFromVeth faultyEnv 100 veth0).2.trace, ev.isFailedRestore 100 = false) ∧
    (getNetNSFromVeth faultyEnv 100 veth0).1 = .err (.sys "injected failure") ∧
    (getNetNSFromVeth faultyEnv 100 veth0).2.ctx = 100 :=
  ⟨by decide, by decide, getNetNSFromVeth_restores_context faultyEnv 100 veth0 (by decide)⟩

/-- Counterexample to C3: on the host where the kernel refuses `netns.Set(origNS)`,
`getNetNSFromVeth`, called in namespace 100, enters namespace 200, returns an inode
(the error of the deferred call is dropped) and leaves the thread in namespace 200. -/
theorem restore_failure_leaves_thread :
    (getNetNSFromVeth stuckEnv 100 veth0).1 = .ok 100 ∧
    (getNetNSFromVeth stuckEnv 100 veth0).2.ctx = 200 ∧
    (getNetNSFromVeth stuckEnv 100 veth0).2.ctx ≠ 100 ∧
    Event.netnsSet 200 (.current 100) false ∈ (getNetNSFromVeth stuckEnv 100 veth0).2.trace := by
  decide

/-! ## The paths of `filepath.Join` -/

/-- The model of `filepath.Clean` on cases of Go's documentation and tests. -/
theorem filepathClean_examples :
    filepathClean (ascii "a//c") = ascii "a/c" ∧
    filepathClean (ascii "a/c/b/..") = ascii "a/c" ∧
    filepathClean (ascii "/../a/b/../././/c") = ascii "/a/c" ∧
    filepathClean (ascii "") = ascii "." ∧
    filepathClean (ascii "abc/") = ascii "abc" ∧
    filepathClean (ascii "abc/../../././../def") = ascii "../../def" ∧
    filepathClean (ascii "/abc/def/../../..") = ascii "/" ∧
    filepathClean (ascii "abc/def/../../..") = ascii ".." := by
  decide

/-- The path `getNSIno` reads is the cleaned one: for the pid `1/../2` it is
`/proc/2/ns/net`. -/
theorem nsLinkPath_examples :
    nsLinkPath (ascii "net") (ascii "4242") = ascii "/proc/4242/ns/net" ∧
    nsLinkPath (ascii "net") (ascii "1/../2") = ascii "/proc/2/ns/net" ∧
    nsLinkPath (ascii "net") (ascii "") = ascii "/proc/ns/net" ∧
    filepathJoin [ascii "/proc/7", ascii "ns", ascii "net"] = ascii "/proc/7/ns/net" := by
  decide


/-- For a pid written in decimal digits the path `getNSIno` reads is
`/proc/<pid>/ns/net`: cleaning changes nothing. -/
theorem nsLinkPath_digits (d : GoString) (hd : ∀ c ∈ d, 48 ≤ c ∧ c ≤ 57) (hne : d ≠ []) :
    nsLinkPath (ascii "net") d = ascii "/proc/" ++ d ++ ascii "/ns/net" := by
  have h47 : (47 : Nat) ∉ d := fun h => by have := hd 47 h; omega
  have h1 : d ≠ [46] := by
    intro h; have := hd 46 (by rw [h]; simp); omega
  have h2 : d ≠ [46, 46] := by
    intro h; have := hd 46 (by rw [h]; simp); omega
  have hproc : ascii "/proc" = [47, 112, 114, 111, 99] := by decide
  have hproc2 : ascii "/proc/" = [47, 112, 114, 111, 99, 47] := by decide
  have hns : ascii "ns" = [110, 115] := by decide
  have hnet : ascii "net" = [110, 101, 116] := by decide
  have hnsnet : ascii "/ns/net" = [47, 110, 115, 47, 110, 101, 116] := by decide
  have hpath : [47].intercalate [ascii "/proc", d, ascii "ns", ascii "net"]
      = 47 :: ([112, 114, 111, 99] ++ 47 :: (d ++ 47 :: ([110, 115] ++ 47 :: [110, 101, 116]))) := by
    simp [List.intercalate, List.intersperse, hproc, hns, hnet]
  have hsplit : stringsSplit 47
      (47 :: ([112, 114, 111, 99] ++ 47 :: (d ++ 47 :: ([110, 115] ++ 47 :: [110, 101, 116]))))
      = [[], [112, 114, 111, 99], d, [110, 115], [110, 101, 116]] := by
    have e0 := @stringsSplit_append_sep 47 []
      ([112, 114, 111, 99] ++ 47 :: (d ++ 47 :: ([110, 115] ++ 47 :: [110, 101, 116]))) (by simp)
    have e1 := @stringsSplit_append_sep 47 [112, 114, 111, 99]
      (d ++ 47 :: ([110, 115] ++ 47 :: [110, 101, 116])) (by decide)
    have e2 := @stringsSplit_append_sep 47 d
      ([110, 115] ++ 47 :: [110, 101, 116]) h47
    have e3 := @stringsSplit_append_sep 47 [110, 115] [110, 101, 116] (by decide)
    have e4 : stringsSplit 47 [110, 101, 116] = [[110, 101, 116]] :=
      stringsSplit_of_not_mem (by decide)
    simp only [List.nil_append] at e0
    rw [e0, e1, e2, e3, e4]
  unfold nsLinkPath filepathJoin
  have hdrop : List.dropWhile (fun e => decide (e = [])) [ascii "/proc", d, ascii "ns", ascii "net"]
      = [ascii "/proc", d, ascii "ns", ascii "net"] := by
    simp [List.dropWhile, hproc]
  rw [hdrop]
  simp only []
  rw [hpath]
  simp only [filepathClean, if_true, hsplit]
  simp [cleanElems, hne, h1, h2, List.intercalate, List.intersperse, hproc2, hnsnet]

end VethNetns
